import Mathlib

/-!
# BSER decoder (`src/bser.cc`): embedding and properties

The decoder walks a byte buffer through a cursor `*ptr` and an end pointer `end`.
The embedding keeps pointers as integer offsets from the first byte of the buffer
(`end` is the buffer length), with exact integer arithmetic on them.

The C code reads memory without asking whether the address is inside the buffer.
A read is therefore total here: inside the buffer it yields the buffer's byte, outside
it yields whatever byte the surrounding memory holds (`Mem.outside`), and the state
records in `St.oob` that such a read took place.

`Nan::ThrowTypeError` and `Nan::ThrowError` schedule a JavaScript exception and return
to the C++ caller, which goes on running; the state keeps the scheduled exceptions in
the order they were thrown.
-/

namespace Bser

/-! ## Bytes, tags, memory -/

abbrev Byte := Fin 256

def BSER_ARRAY : Byte := 0x00
def BSER_OBJECT : Byte := 0x01
def BSER_STRING : Byte := 0x02
def BSER_INT8 : Byte := 0x03
def BSER_INT16 : Byte := 0x04
def BSER_INT32 : Byte := 0x05
def BSER_INT64 : Byte := 0x06
def BSER_REAL : Byte := 0x07
def BSER_TRUE : Byte := 0x08
def BSER_FALSE : Byte := 0x09
def BSER_NULL : Byte := 0x0a
def BSER_TEMPLATE : Byte := 0x0b
def BSER_SKIP : Byte := 0x0c

/-- The bytes of the string literal `EMPTY_HEADER`: 00 01 05 00 00 00 00. -/
def EMPTY_HEADER : List Byte := [0x00, 0x01, 0x05, 0x00, 0x00, 0x00, 0x00]

/-- The memory seen from the buffer's first byte: the buffer handed to `loads`, and the
bytes a read at an offset outside the buffer would find. -/
structure Mem where
  data : List Byte
  outside : Int → Byte

/-- The offset of `end`: the buffer length. -/
def Mem.size (m : Mem) : Int := (m.data.length : Int)

/-- The byte at offset `i` from the start of the buffer. -/
def Mem.byte (m : Mem) (i : Int) : Byte :=
  if i < 0 then m.outside i else m.data.getD i.toNat (m.outside i)

/-- The `n` bytes starting at offset `i` (what `memcpy(&x, buf + i, n)` copies). -/
def Mem.bytes (m : Mem) (i : Int) : Nat → List Byte
  | 0 => []
  | n + 1 => m.byte i :: m.bytes (i + 1) n

/-- Whether the `n` bytes starting at offset `i` all lie inside the buffer. -/
def Mem.inside (m : Mem) (i : Int) (n : Int) : Bool :=
  decide (0 ≤ i ∧ i + n ≤ m.size)

/-- A buffer surrounded by zero bytes, for concrete evaluations. -/
def memOf (data : List Byte) : Mem := ⟨data, fun _ => 0⟩

/-! ## Exceptions and state -/

/-- The messages handed to `Nan::ThrowTypeError` by the decoders. -/
inductive TypeErr where
  /-- "bser: invalid bser int encoding 0x.." -/
  | invalidIntEncoding (tag : Byte)
  /-- "bser: input buffer to small for int encoding." -/
  | bufferTooSmall
  /-- "bser: invalid string length in bser data." -/
  | invalidStringLength
  /-- "bser: array exceeds limits." -/
  | arrayExceedsLimits
  /-- "bser: string exceeds limits." -/
  | stringExceedsLimits
  /-- "bser: object exceeds limits." -/
  | objectExceedsLimits
  /-- "bser: expected array to follow template." -/
  | expectedArray
  /-- "bser: unhandled bser opcode 0x.." -/
  | unhandledOpcode (tag : Byte)
  deriving DecidableEq, Repr

/-- The messages handed to `Nan::ThrowError` by `bser_loads`. -/
inductive LoadErr where
  /-- "bser.loads: invalid bser header." -/
  | invalidHeader
  /-- "bser.loads: bser data len != header len" -/
  | lenMismatch
  deriving DecidableEq, Repr

/-- An exception scheduled on the isolate. -/
inductive Exn where
  | typeError (e : TypeErr)
  | error (e : LoadErr)
  deriving DecidableEq, Repr

/-- What a decoder call works on and leaves behind: the cursor `*ptr`, the type errors
thrown so far (oldest first), and whether a read fell outside the buffer. -/
structure St where
  ptr : Int
  thrown : List TypeErr
  oob : Bool
  deriving DecidableEq, Repr

/-- Record a read of the `n` bytes at offset `i`. -/
def St.read (s : St) (m : Mem) (i : Int) (n : Int) : St :=
  { s with oob := s.oob || !m.inside i n }

/-- Record `Nan::ThrowTypeError(e)`. -/
def St.throw (s : St) (e : TypeErr) : St :=
  { s with thrown := s.thrown ++ [e] }

/-! ## Decoded values

A value is kept as what the decoder hands to V8: a string as the bytes given to
`Nan::New<v8::String>`, an array as its slots, an object as the `Nan::Set` calls made on
it. What V8 makes of the calls on an object (which properties it then has, and in which
order) is described further down, apart from the decoders. -/

/-- The JavaScript values the decoder builds. -/
inductive Value where
  | null
  | bool (b : Bool)
  /-- A `v8::Number` made from an `int64_t`; `v` is the value of the resulting double. -/
  | number (v : Int)
  /-- A `v8::Number` made from the 8 raw bytes of a double. -/
  | real (bytes : List Byte)
  /-- A `v8::String`, kept as the bytes it was made from. -/
  | str (s : List Byte)
  /-- A `v8::String` made with a negative length: V8 then takes the NUL-terminated
  bytes found at `start`. -/
  | cstr (start : Int)
  /-- What an array slot that was never set reads as. -/
  | undefined
  /-- An array: its slots, from index 0. -/
  | arr (xs : List Value)
  /-- An object made by `Nan::New<v8::Object>()`: the calls `Nan::Set(obj, key, value)`
  made on it, oldest first. -/
  | obj (kvs : List (Value × Value))

/-- `Nan::Set(obj, key, value)` on an object: the call is added to those made so far. -/
def objSet (obj : List (Value × Value)) (key value : Value) : List (Value × Value) :=
  obj ++ [(key, value)]

/-- An `int64_t` given for an `int` parameter: the low 32 bits, read as two's
complement. -/
def toInt (n : Int) : Int := (n + 2 ^ 31) % 2 ^ 32 - 2 ^ 31

/-- `Nan::New<v8::Array>(length)`: `length` is converted to the `int` the constructor
takes, and V8 makes an array of that many unset slots, of none when it is negative. -/
def newArray (length : Int) : List Value :=
  List.replicate (toInt length).toNat .undefined

/-- `Nan::Set(arr, i, value)` on an array: slot `i` takes the value, the array growing
with unset slots when it is shorter. The index is taken to fit the `uint32_t`
parameter. -/
def arrSet (arr : List Value) (i : Nat) (value : Value) : List Value :=
  if i < arr.length then arr.set i value
  else arr ++ List.replicate (i - arr.length) .undefined ++ [value]

/-- `Nan::New<v8::String>(start, len)`: the string of the `len` bytes at `start`; a
negative length makes V8 measure a NUL-terminated string instead. `len` is converted to
the `int` the constructor takes; a length that is not negative is taken to fit it. -/
def newString (m : Mem) (start len : Int) : Value :=
  if 0 ≤ len then .str (m.bytes start len.toNat)
  else if toInt len < 0 then .cstr start
  else .str (m.bytes start (toInt len).toNat)

/-- How many low bits a magnitude loses when it is stored in a double's 53-bit
significand (`fuel` bounds the count; 11 is enough for 64-bit magnitudes). -/
def excessBits : Nat → Nat → Nat
  | 0, _ => 0
  | fuel + 1, a => if a < 2 ^ 53 then 0 else excessBits fuel (a / 2) + 1

/-- The implicit `int64_t` to `double` conversion at `Nan::New<v8::Number>(ival)`:
round to nearest, ties to even. -/
def int64ToDouble (v : Int) : Int :=
  let a := v.natAbs
  let e := excessBits 11 a
  let q := a / 2 ^ e
  let r := a % 2 ^ e
  let q' := if 2 * r > 2 ^ e ∨ (2 * r = 2 ^ e ∧ q % 2 = 1) then q + 1 else q
  if v < 0 then -((q' * 2 ^ e : Nat) : Int) else ((q' * 2 ^ e : Nat) : Int)

/-! ## `bunser_int` -/

/-- The `needed` of `bunser_int`'s first `switch`: tag plus payload size, or `none` in
the `default` case. -/
def intNeeded (tag : Byte) : Option Int :=
  if tag = BSER_INT8 then some 2
  else if tag = BSER_INT16 then some 3
  else if tag = BSER_INT32 then some 5
  else if tag = BSER_INT64 then some 9
  else none

/-- The unsigned value of bytes in little-endian order. -/
def leUnsigned : List Byte → Nat
  | [] => 0
  | b :: bs => b.val + 256 * leUnsigned bs

/-- The value of an `intN_t` whose object representation is `bs` (little-endian host,
two's complement), widened to `int64_t`. -/
def leSigned (bs : List Byte) : Int :=
  let u := leUnsigned bs
  let w := 256 ^ bs.length
  if 2 * u < w then (u : Int) else (u : Int) - (w : Int)

/-- What `bunser_int` leaves behind: its return code, `*val`, and the state. -/
structure IntRes where
  rc : Int
  val : Int
  st : St
  deriving DecidableEq, Repr

/-- `bunser_int(ptr, end, val)`, with `s.ptr` for `*ptr` and `val` for `*val` on entry.
The second `switch` runs only for the four integer tags (the first has returned for any
other byte), so its `default` case is never reached. -/
def bunser_int (m : Mem) (s : St) (val : Int) : IntRes :=
  let buf := s.ptr
  let tag := m.byte buf
  let s1 := s.read m buf 1
  match intNeeded tag with
  | none => ⟨0, val, s1.throw (.invalidIntEncoding tag)⟩
  | some needed =>
    if m.size - buf < needed then ⟨0, val, s1.throw .bufferTooSmall⟩
    else
      ⟨1, leSigned (m.bytes (buf + 1) (needed - 1).toNat),
        { s1.read m (buf + 1) (needed - 1) with ptr := buf + needed }⟩

/-! ## `bunser_bytestring` -/

/-- What `bunser_bytestring` leaves behind: its return code, `*start`, `*len`, and the
state. -/
structure StrRes where
  rc : Int
  start : Int
  len : Int
  st : St
  deriving DecidableEq, Repr

/-- `bunser_bytestring(ptr, end, start, len)`, with `start` and `len` the values of
`*start` and `*len` on entry. -/
def bunser_bytestring (m : Mem) (s : St) (start len : Int) : StrRes :=
  let r := bunser_int m { s with ptr := s.ptr + 1 } len
  if r.rc = 0 then ⟨0, start, r.val, { r.st with ptr := s.ptr }⟩
  else if r.st.ptr + r.val > m.size then
    ⟨0, start, r.val, { r.st.throw .invalidStringLength with ptr := s.ptr }⟩
  else ⟨1, r.st.ptr, r.val, { r.st with ptr := r.st.ptr + r.val }⟩

/-! ## The compound decoders

`bunser_array`, `bunser_object` and `bunser_template` call back into `bunser` for every
element. They take that callee as `dec`; `bunser` below passes itself. A decoder call
yields `none` when the nesting of calls exceeds the budget `bunser` was given.

The locals the code declares without a value (`length`, `keylen`, `keystr`, `ival`, ...)
are handed to the readers as 0; the code reads them only after a reader has written
them. -/

/-- The loop of `bunser_array`: `n` iterations left, `i` the loop counter, `arr` the
array so far. -/
def arrayLoop (dec : St → Option (Value × St)) :
    Nat → Nat → St → List Value → Option (List Value × St)
  | 0, _, s, arr => some (arr, s)
  | n + 1, i, s, arr =>
    match dec s with
    | none => none
    | some (element, s') => arrayLoop dec n (i + 1) s' (arrSet arr i element)

/-- `bunser_array(ptr, end)`. `LONG_MAX` is the constant of `<limits.h>`. The loop
`for (i = 0; i < length; i++)` runs `length` times, not at all for a negative
`length`. -/
def bunser_array (dec : St → Option (Value × St)) (LONG_MAX : Int) (m : Mem) (s : St) :
    Option (List Value × St) :=
  let r := bunser_int m { s with ptr := s.ptr + 1 } 0
  if r.rc = 0 then some (newArray 0, { r.st with ptr := s.ptr })
  else if r.val > LONG_MAX then some (newArray 0, r.st.throw .arrayExceedsLimits)
  else arrayLoop dec r.val.toNat 0 r.st (newArray r.val)

/-- The loop of `bunser_object`: `n` iterations left, `obj` the object so far. The key
is `Nan::New<v8::String>(keystr, keylen)`. -/
def objectLoop (dec : St → Option (Value × St)) (LONG_MAX : Int) (m : Mem) :
    Nat → St → List (Value × Value) → Option (List (Value × Value) × St)
  | 0, s, obj => some (obj, s)
  | n + 1, s, obj =>
    let k := bunser_bytestring m s 0 0
    if k.rc = 0 then some (obj, k.st)
    else if k.len > LONG_MAX then some (obj, k.st.throw .stringExceedsLimits)
    else
      match dec k.st with
      | none => none
      | some (v, s') => objectLoop dec LONG_MAX m n s' (objSet obj (newString m k.start k.len) v)

/-- `bunser_object(ptr, end)`. -/
def bunser_object (dec : St → Option (Value × St)) (LONG_MAX : Int) (m : Mem) (s : St) :
    Option (List (Value × Value) × St) :=
  let r := bunser_int m { s with ptr := s.ptr + 1 } 0
  if r.rc = 0 then some ([], { r.st with ptr := s.ptr })
  else objectLoop dec LONG_MAX m r.val.toNat r.st []

/-- The inner loop of `bunser_template`, over the keys still to visit in one row. -/
def templateRow (dec : St → Option (Value × St)) (m : Mem) :
    List Value → St → List (Value × Value) → Option (List (Value × Value) × St)
  | [], s, obj => some (obj, s)
  | key :: keys, s, obj =>
    let s1 := s.read m s.ptr 1
    if m.byte s.ptr = BSER_SKIP then templateRow dec m keys { s1 with ptr := s.ptr + 1 } obj
    else
      match dec s1 with
      | none => none
      | some (element, s') => templateRow dec m keys s' (objSet obj key element)

/-- The outer loop of `bunser_template`: `n` rows left, `i` the loop counter, `arr` the
array of rows so far. -/
def templateRows (dec : St → Option (Value × St)) (m : Mem) (keys : List Value) :
    Nat → Nat → St → List Value → Option (List Value × St)
  | 0, _, s, arr => some (arr, s)
  | n + 1, i, s, arr =>
    match templateRow dec m keys s [] with
    | none => none
    | some (obj, s') => templateRows dec m keys n (i + 1) s' (arrSet arr i (.obj obj))

/-- `bunser_template(ptr, end)`. `keys->Length()` is the number of slots of the key
array, and `Nan::Get(keys, keyidx)` the slot `keyidx`. -/
def bunser_template (dec : St → Option (Value × St)) (LONG_MAX : Int) (m : Mem) (s : St) :
    Option (List Value × St) :=
  let buf := s.ptr
  let s1 := s.read m (buf + 1) 1
  if m.byte (buf + 1) ≠ BSER_ARRAY then some (newArray 0, s1.throw .expectedArray)
  else
    match bunser_array dec LONG_MAX m { s1 with ptr := buf + 1 } with
    | none => none
    | some (keys, s2) =>
      if keys.length = 0 then some (newArray 0, s2)
      else
        let r := bunser_int m s2 0
        if r.rc = 0 then some (newArray 0, r.st)
        else if r.val > LONG_MAX then some (newArray 0, r.st.throw .objectExceedsLimits)
        else templateRows dec m keys r.val.toNat 0 r.st (newArray r.val)

/-! ## `bunser` -/

/-- `bunser(ptr, end)`. The first argument after the memory bounds how deeply the calls
may nest: with none left the result is `none`. -/
def bunser (LONG_MAX : Int) (m : Mem) : Nat → St → Option (Value × St)
  | 0, _ => none
  | fuel + 1, s =>
    let buf := s.ptr
    let tag := m.byte buf
    let s1 := s.read m buf 1
    if tag = BSER_INT8 ∨ tag = BSER_INT16 ∨ tag = BSER_INT32 ∨ tag = BSER_INT64 then
      let r := bunser_int m s1 0
      if r.rc = 0 then some (.null, r.st)
      else some (.number (int64ToDouble r.val), r.st)
    else if tag = BSER_REAL then
      some (.real (m.bytes (buf + 1) 8), { s1.read m (buf + 1) 8 with ptr := buf + 1 + 8 })
    else if tag = BSER_TRUE then some (.bool true, { s1 with ptr := buf + 1 })
    else if tag = BSER_FALSE then some (.bool false, { s1 with ptr := buf + 1 })
    else if tag = BSER_NULL then some (.null, { s1 with ptr := buf + 1 })
    else if tag = BSER_STRING then
      let r := bunser_bytestring m s1 0 0
      if r.rc = 0 then some (.null, r.st)
      else if r.len > LONG_MAX then some (.null, r.st.throw .stringExceedsLimits)
      else some (newString m r.start r.len, r.st)
    else if tag = BSER_ARRAY then
      match bunser_array (bunser LONG_MAX m fuel) LONG_MAX m s1 with
      | none => none
      | some (xs, s') => some (.arr xs, s')
    else if tag = BSER_OBJECT then
      match bunser_object (bunser LONG_MAX m fuel) LONG_MAX m s1 with
      | none => none
      | some (kvs, s') => some (.obj kvs, s')
    else if tag = BSER_TEMPLATE then
      match bunser_template (bunser LONG_MAX m fuel) LONG_MAX m s1 with
      | none => none
      | some (xs, s') => some (.arr xs, s')
    else some (.null, s1.throw (.unhandledOpcode tag))

/-! ## `bser_loads` -/

/-- What a call of `loads` leaves behind: the exceptions scheduled (oldest first), the
value given to `info.GetReturnValue().Set`, if any, and whether a read fell outside the
buffer. -/
structure LoadResult where
  thrown : List Exn
  ret : Option Value
  oob : Bool

/-- The body of `bser_loads` from `data` on (the two checks of `info` before it concern
the call, not the buffer), with the integer reader and the value decoder it calls as
arguments. -/
def bser_loads_with (readInt : Mem → St → Int → IntRes) (decode : Mem → St → Option (Value × St))
    (m : Mem) : Option LoadResult :=
  let s0 : St := (⟨0, [], false⟩ : St).read m 0 2
  if m.bytes 0 2 ≠ EMPTY_HEADER.take 2 then some ⟨[.error .invalidHeader], none, s0.oob⟩
  else
    let r := readInt m { s0 with ptr := 2 } 0
    if r.rc = 0 then
      some ⟨r.st.thrown.map Exn.typeError ++ [.error .invalidHeader], none, r.st.oob⟩
    else if r.val + r.st.ptr ≠ m.size then
      some ⟨r.st.thrown.map Exn.typeError ++ [.error .lenMismatch], none, r.st.oob⟩
    else
      match decode m r.st with
      | none => none
      | some (v, s) => some ⟨s.thrown.map Exn.typeError, some v, s.oob⟩

/-- `bser_loads` on a buffer: `bser_loads_with` calling `bunser_int` and `bunser`. -/
def bser_loads (LONG_MAX : Int) (fuel : Nat) (m : Mem) : Option LoadResult :=
  bser_loads_with bunser_int (fun m s => bunser LONG_MAX m fuel s) m

/-- `LONG_MAX` where `long` has 64 bits. -/
def LONG_MAX_64 : Int := 2 ^ 63 - 1

/-! ## The wire format in the specification's words -/

/-- The payload width, in bytes, that an integer tag selects: 1, 2, 4 or 8 for the tags
0x03 to 0x06; `none` for any other byte. -/
def intWidth (tag : Byte) : Option Nat :=
  if tag.val = 0x03 then some 1
  else if tag.val = 0x04 then some 2
  else if tag.val = 0x05 then some 4
  else if tag.val = 0x06 then some 8
  else none

/-- The `w` bytes of the two's-complement representation of `v`, least significant
byte first. -/
def twosComplementLE : Nat → Int → List Byte
  | 0, _ => []
  | w + 1, v => Fin.ofNat (v % 256).toNat :: twosComplementLE w (v / 256)

/-- The values a signed integer of `w` bytes can take. -/
def fitsSigned (w : Nat) (v : Int) : Prop :=
  -(2 ^ (8 * w - 1) : Int) ≤ v ∧ v < (2 ^ (8 * w - 1) : Int)

/-! ## Sample buffers -/

/-- The buffer 00 01 03 07 00 03 02 02 03 fa 00: at offset 4 an array of 2 elements
whose first element, at offset 7, is a string declaring the length -6. -/
def loopBuffer : List Byte :=
  [0x00, 0x01, 0x03, 0x07, 0x00, 0x03, 0x02, 0x02, 0x03, 0xfa, 0x00]

/-- The buffer 00 01 03 0b 01 03 02 02 03 01 61 0d 03 00 08: at offset 4 an object of
2 pairs; the first key is "a" and its value, at offset 11, starts with the byte 0x0d,
which is no tag. -/
def garbageBuffer : List Byte :=
  [0x00, 0x01, 0x03, 0x0b, 0x01, 0x03, 0x02, 0x02, 0x03, 0x01, 0x61, 0x0d, 0x03, 0x00, 0x08]

/-! ## Well-formed encodings, in the specification's words -/

/-- The bytes `bs` are an encoded integer of value `n`: one of the four integer tags
followed by the little-endian two's-complement bytes of `n`, of the width the tag
selects. -/
def IsIntEnc (bs : List Byte) (n : Int) : Prop :=
  ∃ tag w, intWidth tag = some w ∧ fitsSigned w n ∧ bs = tag :: twosComplementLE w n

/-- One (key, value) pair of an encoded object: the encoded key length, the key's bytes,
the encoded value and the value it stands for. -/
structure PairEnc where
  keyLen : List Byte
  key : List Byte
  bytes : List Byte
  value : Value

/-- The bytes of an encoded pair: a STRING-tagged key, then the value. -/
def PairEnc.all (p : PairEnc) : List Byte :=
  BSER_STRING :: p.keyLen ++ p.key ++ p.bytes

/-- One cell of a template row: the SKIP byte, or an encoded value. -/
def cellBytes : Option (List Byte × Value) → List Byte
  | none => [BSER_SKIP]
  | some e => e.1

/-- The (key, value) pairs a template row holds: the keys whose cell is not SKIP, in key
order, with the value of that cell. -/
def rowPairs {κ : Type} (keys : List κ) (row : List (Option (List Byte × Value))) :
    List (κ × Value) :=
  (keys.zip row).filterMap (fun kc => kc.2.map (fun e => (kc.1, e.2)))

/-- `Encodes LONG_MAX d bs v`: the bytes `bs` are a well-formed encoding, nested at most
`d` deep, of the value `v`, following the wire format table: tagged integers, reals,
literals, length-prefixed strings, counted arrays, counted objects of (string key,
value) pairs, and templates (a key array of strings, a row count, and one cell per key
and row). No count or length exceeds `LONG_MAX`. Integers stand for the JavaScript
number nearest to them; an object stands for its pairs in encoded order, and a template
row for the pairs of its cells that are not SKIP. -/
def Encodes (LONG_MAX : Int) : Nat → List Byte → Value → Prop
  | 0, _, _ => False
  | d + 1, bs, v =>
    (∃ n, IsIntEnc bs n ∧ v = .number (int64ToDouble n)) ∨
    (∃ payload, payload.length = 8 ∧ bs = BSER_REAL :: payload ∧ v = .real payload) ∨
    (bs = [BSER_TRUE] ∧ v = .bool true) ∨
    (bs = [BSER_FALSE] ∧ v = .bool false) ∨
    (bs = [BSER_NULL] ∧ v = .null) ∨
    (∃ len payload, IsIntEnc len payload.length ∧ (payload.length : Int) ≤ LONG_MAX ∧
      bs = BSER_STRING :: len ++ payload ∧ v = .str payload) ∨
    (∃ (cnt : List Byte) (elems : List (List Byte × Value)),
      IsIntEnc cnt elems.length ∧ (elems.length : Int) ≤ LONG_MAX ∧
      (∀ e ∈ elems, Encodes LONG_MAX d e.1 e.2) ∧
      bs = BSER_ARRAY :: cnt ++ (elems.map Prod.fst).flatten ∧ v = .arr (elems.map Prod.snd)) ∨
    (∃ (cnt : List Byte) (pairs : List PairEnc),
      IsIntEnc cnt pairs.length ∧
      (∀ p ∈ pairs, IsIntEnc p.keyLen p.key.length ∧ (p.key.length : Int) ≤ LONG_MAX ∧
        Encodes LONG_MAX d p.bytes p.value) ∧
      bs = BSER_OBJECT :: cnt ++ (pairs.map PairEnc.all).flatten ∧
      v = .obj (pairs.map (fun p => (.str p.key, p.value)))) ∨
    (∃ cnt, IsIntEnc cnt 0 ∧ 0 ≤ LONG_MAX ∧
      bs = BSER_TEMPLATE :: BSER_ARRAY :: cnt ∧ v = .arr []) ∨
    (∃ (cnt : List Byte) (keys : List (List Byte × Value)) (rcnt : List Byte)
        (rows : List (List (Option (List Byte × Value)))),
      keys ≠ [] ∧ IsIntEnc cnt keys.length ∧ (keys.length : Int) ≤ LONG_MAX ∧
      (∀ k ∈ keys, Encodes LONG_MAX d k.1 k.2 ∧ ∃ s, k.2 = .str s) ∧
      IsIntEnc rcnt rows.length ∧ (rows.length : Int) ≤ LONG_MAX ∧
      (∀ row ∈ rows, row.length = keys.length ∧
        ∀ c ∈ row, ∀ e, c = some e → Encodes LONG_MAX d e.1 e.2) ∧
      bs = BSER_TEMPLATE :: BSER_ARRAY :: cnt ++ (keys.map Prod.fst).flatten ++ rcnt ++
        (rows.map (fun row => (row.map cellBytes).flatten)).flatten ∧
      v = .arr (rows.map (fun row => .obj (rowPairs (keys.map Prod.snd) row))))

/-- The decoder `dec` decodes the bytes `bs` to `v` wherever they stand in the buffer of
`m`: entered at their first byte it returns `v` with the cursor just past their last
byte, throwing nothing and reading nothing outside the buffer. -/
def Decodes (dec : St → Option (Value × St)) (m : Mem) (bs : List Byte) (v : Value) : Prop :=
  ∀ (pre post : List Byte) (thrown : List TypeErr) (oob : Bool), m.data = pre ++ bs ++ post →
    dec ⟨(pre.length : Int), thrown, oob⟩ = some (v, ⟨((pre ++ bs).length : Int), thrown, oob⟩)

/-! ## What V8 makes of the calls on an object

`Nan::Set(obj, key, value)` is V8's `obj->Set(key, value)`. On an object made by
`Nan::New<v8::Object>()` and for a key that is a string, the property name is the
string V8 decoded from the key's UTF-8 bytes. A name that is an array index is kept
among the object's elements, which are listed in ascending index order; any other name
is kept among its named properties, which are listed after the elements, in the order in
which they were first set. The name `__proto__` is found on `Object.prototype` as an
accessor, whose setter is called instead.

The definitions below describe this for keys that are strings of well-formed UTF-8. Under
`__proto__` a value that is neither an object nor null is ignored by the setter; an
object or null becomes the prototype, which is not described here. Nor is a key that is
ill-formed UTF-8 (V8 replaces ill-formed bytes by U+FFFD) or not a string (V8 converts
it to one): for these the definitions say nothing (`none`). -/

/-- The decimal digits of `n` as code points, most significant first, put before `acc`;
`fuel` bounds their number. -/
def decimalAux : Nat → Nat → List Nat → List Nat
  | 0, _, acc => acc
  | fuel + 1, n, acc =>
    if n < 10 then (0x30 + n) :: acc else decimalAux fuel (n / 10) ((0x30 + n % 10) :: acc)

/-- The decimal numeral of `n` (exact below 10^10). -/
def decimal (n : Nat) : List Nat := decimalAux 10 n []

/-- The number a string of decimal digits writes. -/
def decimalValue (name : List Nat) : Nat := name.foldl (fun acc c => acc * 10 + (c - 0x30)) 0

/-- The array index a property name stands for, if any: the name is the decimal numeral,
without sign or leading zero, of an integer below 2^32 - 1. -/
def arrayIndex (name : List Nat) : Option Nat :=
  if decimalValue name < 2 ^ 32 - 1 ∧ decimal (decimalValue name) = name then
    some (decimalValue name)
  else none

/-- The own properties of an object: its elements in ascending index order, and its
named properties in the order in which they were first set. -/
structure JSObject where
  elements : List (Nat × Value)
  named : List (List Nat × Value)

/-- The first value listed for the key `k`. -/
def assoc {κ : Type} [DecidableEq κ] (k : κ) : List (κ × Value) → Option Value
  | [] => none
  | (k', v) :: rest => if k' = k then some v else assoc k rest

/-- Storing an element: an index already there takes the new value, a new index goes to
its place in ascending order. -/
def elemSet : List (Nat × Value) → Nat → Value → List (Nat × Value)
  | [], i, v => [(i, v)]
  | (j, w) :: rest, i, v =>
    if i < j then (i, v) :: (j, w) :: rest
    else if i = j then (j, v) :: rest
    else (j, w) :: elemSet rest i v

/-- Storing a named property: a name already there keeps its place and takes the new
value, a new name is added last. -/
def propSet {κ : Type} [DecidableEq κ] : List (κ × Value) → κ → Value → List (κ × Value)
  | [], k, v => [(k, v)]
  | (k', v') :: rest, k, v =>
    if k' = k then (k', v) :: rest else (k', v') :: propSet rest k v

/-- `obj->Set(name, value)` for a name other than `__proto__`. -/
def JSObject.set (o : JSObject) (name : List Nat) (v : Value) : JSObject :=
  match arrayIndex name with
  | some i => { o with elements := elemSet o.elements i v }
  | none => { o with named := propSet o.named name v }

/-- The names of the own properties in the order V8 lists them. -/
def JSObject.keys (o : JSObject) : List (List Nat) :=
  o.elements.map (fun e => decimal e.1) ++ o.named.map Prod.fst

theorem Mem.length_bytes (m : Mem) (i : Int) (n : Nat) : (m.bytes i n).length = n := by
  induction n generalizing i with
  | zero => rfl
  | succ k ih => simp [Mem.bytes, ih]

theorem twosComplementLE_length (w : Nat) (v : Int) : (twosComplementLE w v).length = w := by
  induction w generalizing v with
  | zero => rfl
  | succ k ih => simp [twosComplementLE, ih]

theorem leUnsigned_lt (bs : List Byte) : leUnsigned bs < 256 ^ bs.length := by
  induction bs with
  | nil => simp [leUnsigned]
  | cons b bs ih =>
    have hb := b.isLt
    simp only [leUnsigned, List.length_cons, pow_succ]
    omega

/-- Adding a multiple of `256 ^ w` does not change the `w` low bytes. -/
theorem twosComplementLE_add_mul (w : Nat) (v k : Int) :
    twosComplementLE w (v + k * 256 ^ w) = twosComplementLE w v := by
  induction w generalizing v k with
  | zero => rfl
  | succ n ih =>
    have e : v + k * 256 ^ (n + 1) = v + (k * 256 ^ n) * 256 := by ring
    simp only [twosComplementLE]
    rw [e, Int.add_mul_emod_self, Int.add_mul_ediv_right _ _ (by norm_num : (256 : Int) ≠ 0), ih]

/-- Encoding the unsigned value of some bytes gives the bytes back. -/
theorem twosComplementLE_leUnsigned (bs : List Byte) :
    twosComplementLE bs.length (leUnsigned bs : Int) = bs := by
  induction bs with
  | nil => rfl
  | cons b bs ih =>
    have hb := b.isLt
    simp only [List.length_cons, twosComplementLE, leUnsigned]
    have h1 : ((b.val + 256 * leUnsigned bs : Nat) : Int) % 256 = (b.val : Int) := by omega
    have h2 : ((b.val + 256 * leUnsigned bs : Nat) : Int) / 256 = (leUnsigned bs : Int) := by omega
    rw [h1, h2, ih]
    congr 1
    apply Fin.ext
    simp [Fin.ofNat]

/-- The unsigned value of the encoding of a `v` with `0 ≤ v < 256 ^ w` is `v`. -/
theorem leUnsigned_twosComplementLE (w : Nat) (v : Int) (h0 : 0 ≤ v) (h1 : v < 256 ^ w) :
    (leUnsigned (twosComplementLE w v) : Int) = v := by
  induction w generalizing v with
  | zero =>
    simp only [pow_zero] at h1
    simp only [twosComplementLE, leUnsigned]
    omega
  | succ n ih =>
    simp only [twosComplementLE, leUnsigned]
    have hv : ((Fin.ofNat (v % 256).toNat : Byte).val : Int) = v % 256 := by
      simp only [Fin.ofNat]
      omega
    rw [pow_succ] at h1
    have hq : v / 256 < 256 ^ n := by
      have hp : (0 : Int) < 256 ^ n := by positivity
      generalize (256 : Int) ^ n = P at h1 hp ⊢
      omega
    have := ih (v / 256) (by omega) hq
    push_cast
    rw [hv, this]
    omega

/-- The value `leSigned` gives is a signed value of the bytes' width whose encoding is the
bytes, and it is the only one. -/
theorem leSigned_spec (bs : List Byte) (hw : 0 < bs.length) :
    fitsSigned bs.length (leSigned bs) ∧ twosComplementLE bs.length (leSigned bs) = bs ∧
    ∀ v, fitsSigned bs.length v → twosComplementLE bs.length v = bs → leSigned bs = v := by
  have hlt := leUnsigned_lt bs
  have hpow : (256 : Int) ^ bs.length = 2 * 2 ^ (8 * bs.length - 1) := by
    have : 8 * bs.length = (8 * bs.length - 1) + 1 := by omega
    calc (256 : Int) ^ bs.length = (2 ^ 8) ^ bs.length := by norm_num
      _ = 2 ^ (8 * bs.length) := by rw [← pow_mul]
      _ = 2 ^ ((8 * bs.length - 1) + 1) := by rw [← this]
      _ = 2 * 2 ^ (8 * bs.length - 1) := by rw [pow_succ]; ring
  have hlt' : (leUnsigned bs : Int) < 256 ^ bs.length := by exact_mod_cast hlt
  have henc := twosComplementLE_leUnsigned bs
  have hshift := twosComplementLE_add_mul bs.length (leUnsigned bs : Int) (-1)
  unfold fitsSigned leSigned
  simp only
  generalize hH : (2 : Int) ^ (8 * bs.length - 1) = H at hpow
  have hcast : ((256 ^ bs.length : Nat) : Int) = 2 * H := by push_cast; exact hpow
  refine ⟨?_, ?_, ?_⟩
  · split_ifs with h
    · have : (2 * leUnsigned bs : Int) < 2 * H := by rw [← hcast]; exact_mod_cast h
      omega
    · have : ¬ (2 * leUnsigned bs : Int) < 2 * H := by rw [← hcast]; exact_mod_cast h
      rw [hcast]; omega
  · split_ifs with h
    · exact henc
    · have e : (leUnsigned bs : Int) - ((256 ^ bs.length : Nat) : Int)
          = (leUnsigned bs : Int) + (-1) * 256 ^ bs.length := by push_cast; ring
      rw [e, hshift, henc]
  · intro v hv hbs
    by_cases hneg : v < 0
    · have hs := twosComplementLE_add_mul bs.length v 1
      rw [hbs] at hs
      have hu := leUnsigned_twosComplementLE bs.length (v + 1 * 256 ^ bs.length)
        (by rw [hpow]; omega) (by rw [hpow]; omega)
      rw [hs, hpow] at hu
      have h : ¬ (2 * leUnsigned bs < 256 ^ bs.length) := by
        intro hc
        have : (2 * leUnsigned bs : Int) < 2 * H := by rw [← hcast]; exact_mod_cast hc
        omega
      rw [if_neg h, hcast]; omega
    · have hu := leUnsigned_twosComplementLE bs.length v (by omega) (by rw [hpow]; omega)
      rw [hbs] at hu
      have h : 2 * leUnsigned bs < 256 ^ bs.length := by
        have : (2 * leUnsigned bs : Int) < ((256 ^ bs.length : Nat) : Int) := by
          rw [hcast]; omega
        exact_mod_cast this
      rw [if_pos h]; exact hu

/-! ## Lemmas on `bunser_int` -/

theorem intNeeded_eq (tag : Byte) :
    intNeeded tag = (intWidth tag).map (fun w => (w : Int) + 1) := by
  have h3 : ((3 : Byte) : Nat) = 3 := rfl
  have h4 : ((4 : Byte) : Nat) = 4 := rfl
  have h5 : ((5 : Byte) : Nat) = 5 := rfl
  have h6 : ((6 : Byte) : Nat) = 6 := rfl
  unfold intNeeded intWidth BSER_INT8 BSER_INT16 BSER_INT32 BSER_INT64
  simp only [Fin.ext_iff, h3, h4, h5, h6]
  split_ifs <;> simp

theorem intWidth_pos (tag : Byte) (w : Nat) (h : intWidth tag = some w) : 0 < w := by
  unfold intWidth at h
  split_ifs at h <;> simp_all <;> omega

/-- The default case of the first `switch`. -/
theorem bunser_int_bad_tag (m : Mem) (s : St) (val0 : Int)
    (h : intWidth (m.byte s.ptr) = none) :
    bunser_int m s val0 = ⟨0, val0, (s.read m s.ptr 1).throw (.invalidIntEncoding (m.byte s.ptr))⟩ := by
  simp [bunser_int, intNeeded_eq, h]

/-- The `end - buf < needed` case. -/
theorem bunser_int_short (m : Mem) (s : St) (val0 : Int) (w : Nat)
    (h : intWidth (m.byte s.ptr) = some w) (hrem : m.size - s.ptr < 1 + w) :
    bunser_int m s val0 = ⟨0, val0, (s.read m s.ptr 1).throw .bufferTooSmall⟩ := by
  have : m.size - s.ptr < (w : Int) + 1 := by omega
  simp [bunser_int, intNeeded_eq, h, this]

/-- The successful case. -/
theorem bunser_int_ok (m : Mem) (s : St) (val0 : Int) (w : Nat)
    (h : intWidth (m.byte s.ptr) = some w) (hrem : s.ptr + 1 + w ≤ m.size) :
    bunser_int m s val0 = ⟨1, leSigned (m.bytes (s.ptr + 1) w),
      { (s.read m s.ptr 1).read m (s.ptr + 1) w with ptr := s.ptr + (w + 1) }⟩ := by
  have : ¬ m.size - s.ptr < (w : Int) + 1 := by omega
  simp [bunser_int, intNeeded_eq, h, this]

theorem read_inside (s : St) (m : Mem) (i n : Int) (h0 : 0 ≤ i) (h1 : i + n ≤ m.size) :
    s.read m i n = s := by
  simp [St.read, Mem.inside, h0, h1]

/-- The successful case on an encoded value: inside the buffer, at a tag of width `w`
followed by the bytes encoding `L`, the reader returns `L`. -/
theorem bunser_int_eq (m : Mem) (s : St) (val0 : Int) (w : Nat) (L : Int)
    (h : intWidth (m.byte s.ptr) = some w) (h0 : 0 ≤ s.ptr) (hrem : s.ptr + 1 + w ≤ m.size)
    (hL : fitsSigned w L) (henc : twosComplementLE w L = m.bytes (s.ptr + 1) w) :
    bunser_int m s val0 = ⟨1, L, { s with ptr := s.ptr + (w + 1) }⟩ := by
  have hpos := intWidth_pos _ _ h
  have hlen := m.length_bytes (s.ptr + 1) w
  have hspec := leSigned_spec (m.bytes (s.ptr + 1) w) (by omega)
  rw [hlen] at hspec
  rw [bunser_int_ok m s val0 w h hrem, hspec.2.2 L hL henc,
    read_inside s m s.ptr 1 h0 (by omega), read_inside s m (s.ptr + 1) w (by omega) (by omega)]

/-! ## Lemmas on arrays -/

theorem toInt_of_fits (n : Int) (h0 : -(2 ^ 31) ≤ n) (h1 : n < 2 ^ 31) : toInt n = n := by
  unfold toInt
  omega

theorem toInt_le (n : Int) (h : 0 ≤ n) : toInt n ≤ n := by
  unfold toInt
  omega

theorem newArray_zero : newArray 0 = [] := by
  simp [newArray, toInt]

theorem newArray_length_le (n : Nat) : (newArray (n : Int)).length ≤ n := by
  have h := toInt_le (n : Int) (by omega)
  simp only [newArray, List.length_replicate]
  omega

theorem newArray_eq (n : Int) :
    newArray n = [] ++ List.replicate (newArray n).length Value.undefined := by
  unfold newArray
  rw [List.length_replicate, List.nil_append]

/-- A negative count whose low 32 bits are a negative `int` gives an array without
slots. -/
theorem newArray_of_negative (n : Int) (h : toInt n < 0) : newArray n = [] := by
  have e : (toInt n).toNat = 0 := by omega
  simp [newArray, e]

/-- Setting the first unset slot of an array whose slots are set up to there. -/
theorem arrSet_next (done : List Value) (h : Nat) (v : Value) :
    arrSet (done ++ List.replicate h .undefined) done.length v
      = (done ++ [v]) ++ List.replicate (h - 1) .undefined := by
  cases h with
  | zero => simp [arrSet]
  | succ k =>
    have hlt : done.length < (done ++ List.replicate (k + 1) Value.undefined).length := by
      simp
    simp [arrSet, hlt, List.replicate_succ]

/-! ## Lemmas on `bunser` -/

/-- At a STRING tag `bunser` leaves the cursor where `bunser_bytestring` leaves it. -/
theorem bunser_string_ptr (LONG_MAX : Int) (m : Mem) (fuel : Nat) (s : St)
    (h : m.byte s.ptr = BSER_STRING) :
    (bunser LONG_MAX m (fuel + 1) s).map (fun r => r.2.ptr)
      = some (bunser_bytestring m (s.read m s.ptr 1) 0 0).st.ptr := by
  simp only [bunser, h]
  simp +decide only [if_true, if_false]
  split_ifs <;> rfl

/-- At an ARRAY tag `bunser` is `bunser_array`, with one call less to nest. -/
theorem bunser_array_tag (LONG_MAX : Int) (m : Mem) (fuel : Nat) (s : St)
    (h : m.byte s.ptr = BSER_ARRAY) :
    bunser LONG_MAX m (fuel + 1) s =
      match bunser_array (bunser LONG_MAX m fuel) LONG_MAX m (s.read m s.ptr 1) with
      | none => none
      | some (xs, s') => some (.arr xs, s') := by
  simp only [bunser, h]
  simp +decide only [if_true, if_false]

/-! ## Lemmas on `bser_loads` -/

/-- `memcmp(data, EMPTY_HEADER, 2)` is nonzero exactly when the first two bytes are not
0x00 0x01. -/
theorem header_ne_iff (m : Mem) :
    m.bytes 0 2 ≠ EMPTY_HEADER.take 2 ↔ ¬ (m.byte 0 = 0x00 ∧ m.byte 1 = 0x01) := by
  have e : m.bytes 0 2 = [m.byte 0, m.byte 1] := rfl
  have e' : EMPTY_HEADER.take 2 = [0x00, 0x01] := rfl
  rw [e, e']
  simp

/-- When the magic bytes are in place, the length field is read as `L` with the cursor
left at `p`, and `L` bytes remain from `p`, the result of `bser_loads` is the result of
the value decoder entered at `p`. -/
theorem bser_loads_with_enters (decode : Mem → St → Option (Value × St)) (m : Mem) (L p : Int)
    (h0 : m.byte 0 = 0x00) (h1 : m.byte 1 = 0x01) (hsz : 2 ≤ m.size)
    (hint : bunser_int m ⟨2, [], false⟩ 0 = ⟨1, L, ⟨p, [], false⟩⟩) (hlen : L + p = m.size) :
    bser_loads_with bunser_int decode m =
      match decode m ⟨p, [], false⟩ with
      | none => none
      | some (v, s) => some ⟨s.thrown.map Exn.typeError, some v, s.oob⟩ := by
  have hc : ¬ (m.bytes 0 2 ≠ EMPTY_HEADER.take 2) := by
    rw [header_ne_iff]
    simp [h0, h1]
  have hin : m.inside 0 2 = true := by
    simp only [Mem.inside, decide_eq_true_eq]
    omega
  have hs0 : ({ (⟨0, [], false⟩ : St).read m 0 2 with ptr := 2 } : St) = ⟨2, [], false⟩ := by
    simp [St.read, hin]
  simp only [bser_loads_with, if_neg hc, hs0, hint]
  simp [hlen]

/-! ## Properties of `bunser_int` -/

/-- C7: at an integer tag 0x03..0x06 with at least `1 + w` bytes left (`w` the width the
tag selects), `bunser_int` returns 1, advances the cursor by exactly `1 + w`, throws
nothing, and `*val` is the signed `w`-byte value whose little-endian two's-complement
bytes are the payload: it lies in the width's range, encodes to the payload, and every
value of the range (minimum and maximum included) that encodes to the payload is the one
returned. -/
theorem C7_bunser_int_decodes_signed (m : Mem) (s : St) (val0 : Int) (w : Nat)
    (htag : intWidth (m.byte s.ptr) = some w) (hrem : s.ptr + 1 + w ≤ m.size) :
    (bunser_int m s val0).rc = 1 ∧
    (bunser_int m s val0).st.ptr = s.ptr + 1 + w ∧
    (bunser_int m s val0).st.thrown = s.thrown ∧
    (0 ≤ s.ptr → (bunser_int m s val0).st.oob = s.oob) ∧
    fitsSigned w (bunser_int m s val0).val ∧
    twosComplementLE w (bunser_int m s val0).val = m.bytes (s.ptr + 1) w ∧
    ∀ v, fitsSigned w v → twosComplementLE w v = m.bytes (s.ptr + 1) w →
      (bunser_int m s val0).val = v := by
  have hpos := intWidth_pos _ _ htag
  have hlen := m.length_bytes (s.ptr + 1) w
  have hspec := leSigned_spec (m.bytes (s.ptr + 1) w) (by omega)
  rw [hlen] at hspec
  rw [bunser_int_ok m s val0 w htag hrem]
  refine ⟨rfl, by simp only; omega, rfl, ?_, hspec.1, hspec.2.1, hspec.2.2⟩
  intro h0
  rw [read_inside s m s.ptr 1 h0 (by omega), read_inside s m (s.ptr + 1) w (by omega) (by omega)]

theorem C7_bunser_int_decodes_signed_witness :
    (bunser_int (memOf [0x04, 0x00, 0x80]) ⟨0, [], false⟩ 7).rc = 1 ∧
    (bunser_int (memOf [0x04, 0x00, 0x80]) ⟨0, [], false⟩ 7).val = -32768 :=
  have h := C7_bunser_int_decodes_signed (memOf [0x04, 0x00, 0x80]) ⟨0, [], false⟩ 7 2
    (by decide) (by decide)
  ⟨h.1, h.2.2.2.2.2.2 (-32768) (by unfold fitsSigned; decide) (by decide)⟩

/-- C8: `bunser_int` returns 0 exactly when the byte at the cursor is not one of the
tags 0x03..0x06, or fewer than `1 + w` bytes remain for the width `w` the tag selects;
the first case throws "invalid bser int encoding", the second "input buffer to small";
and whenever it returns 0 the cursor `*ptr` and `*val` are what they were on entry. The
return code is never anything but 0 or 1. -/
theorem C8_bunser_int_fails_iff (m : Mem) (s : St) (val0 : Int) :
    ((bunser_int m s val0).rc = 0 ↔
      (intWidth (m.byte s.ptr) = none ∨
        ∃ w, intWidth (m.byte s.ptr) = some w ∧ m.size - s.ptr < 1 + w)) ∧
    (intWidth (m.byte s.ptr) = none →
      (bunser_int m s val0).st.thrown = s.thrown ++ [.invalidIntEncoding (m.byte s.ptr)]) ∧
    (∀ w, intWidth (m.byte s.ptr) = some w → m.size - s.ptr < 1 + w →
      (bunser_int m s val0).st.thrown = s.thrown ++ [.bufferTooSmall]) ∧
    ((bunser_int m s val0).rc = 0 →
      (bunser_int m s val0).st.ptr = s.ptr ∧ (bunser_int m s val0).val = val0) ∧
    ((bunser_int m s val0).rc = 0 ∨ (bunser_int m s val0).rc = 1) := by
  cases hw : intWidth (m.byte s.ptr) with
  | none =>
    rw [bunser_int_bad_tag m s val0 hw]
    simp [St.throw, St.read]
  | some w =>
    by_cases hrem : m.size - s.ptr < 1 + w
    · rw [bunser_int_short m s val0 w hw hrem]
      simp [St.throw, St.read, hrem]
    · rw [bunser_int_ok m s val0 w hw (by omega)]
      simp [hrem]

/-! ## Properties of `bser_loads` -/

/-- C9: on a buffer of at least 2 bytes whose first two bytes are not 0x00 0x01,
`bser_loads` throws "invalid bser header" and nothing else, sets no return value and
reads nothing outside the buffer. The outcome is the same whatever integer reader and
value decoder it is given, diverging ones included: neither is called. -/
theorem C9_invalid_header (readInt : Mem → St → Int → IntRes)
    (decode : Mem → St → Option (Value × St)) (m : Mem)
    (hlen : 2 ≤ m.data.length) (hmagic : ¬ (m.byte 0 = 0x00 ∧ m.byte 1 = 0x01)) :
    bser_loads_with readInt decode m = some ⟨[.error .invalidHeader], none, false⟩ := by
  have hc : m.bytes 0 2 ≠ EMPTY_HEADER.take 2 := (header_ne_iff m).2 hmagic
  have hin : m.inside 0 2 = true := by
    simp only [Mem.inside, Mem.size, decide_eq_true_eq]
    omega
  simp only [bser_loads_with, if_pos hc, St.read, hin]
  rfl

theorem C9_invalid_header_witness :
    bser_loads LONG_MAX_64 0 (memOf [0x00, 0x02, 0x03, 0x00]) =
      some ⟨[.error .invalidHeader], none, false⟩ :=
  C9_invalid_header bunser_int (fun m s => bunser LONG_MAX_64 m 0 s)
    (memOf [0x00, 0x02, 0x03, 0x00]) (by decide) (by decide)

/-- C10: on a buffer that starts with 0x00 0x01 followed by an integer tag of width `w`
and the `w` bytes encoding `L`, `bser_loads` throws "bser data len != header len" if and
only if `L` is not the number of bytes left after the length field; in that case the
exception is the only one, no return value is set, and the outcome is the same whatever
value decoder it is given, a diverging one included: the decoder is not called. -/
theorem C10_length_mismatch (decode : Mem → St → Option (Value × St)) (m : Mem)
    (w : Nat) (L : Int)
    (h0 : m.byte 0 = 0x00) (h1 : m.byte 1 = 0x01)
    (htag : intWidth (m.byte 2) = some w) (hfit : 3 + (w : Int) ≤ m.size)
    (hL : fitsSigned w L) (henc : twosComplementLE w L = m.bytes 3 w) :
    ((∃ r, bser_loads_with bunser_int decode m = some r ∧ Exn.error .lenMismatch ∈ r.thrown) ↔
      L ≠ m.size - (3 + w)) ∧
    (L ≠ m.size - (3 + w) →
      bser_loads_with bunser_int decode m = some ⟨[.error .lenMismatch], none, false⟩) := by
  have hc : ¬ (m.bytes 0 2 ≠ EMPTY_HEADER.take 2) := by
    rw [header_ne_iff]
    simp [h0, h1]
  have hin : m.inside 0 2 = true := by
    simp only [Mem.inside, decide_eq_true_eq]
    omega
  have hs0 : ({ (⟨0, [], false⟩ : St).read m 0 2 with ptr := 2 } : St) = ⟨2, [], false⟩ := by
    simp [St.read, hin]
  have hint := bunser_int_eq m ⟨2, [], false⟩ 0 w L htag (by decide) (by simpa using hfit) hL henc
  have hptr : L + ((2 : Int) + (w + 1)) ≠ m.size ↔ L ≠ m.size - (3 + w) := by
    constructor <;> intro h e <;> apply h <;> omega
  by_cases hne : L ≠ m.size - (3 + w)
  · have hne' := hptr.2 hne
    have hres : bser_loads_with bunser_int decode m
        = some ⟨[.error .lenMismatch], none, false⟩ := by
      simp only [bser_loads_with, if_neg hc, hs0, hint]
      simp [hne']
    refine ⟨⟨fun _ => hne, fun _ => ⟨_, hres, by simp⟩⟩, fun _ => hres⟩
  · have heq : L + ((2 : Int) + (w + 1)) = m.size := by
      by_contra hcon
      exact hne (hptr.1 hcon)
    refine ⟨⟨?_, fun h => absurd h hne⟩, fun h => absurd h hne⟩
    rintro ⟨r, hr, hmem⟩
    exfalso
    simp only [bser_loads_with, if_neg hc, hs0, hint] at hr
    simp only [heq] at hr
    cases hd : decode m ⟨2 + (w + 1), [], false⟩ with
    | none => simp [hd] at hr
    | some p =>
      obtain ⟨v, s'⟩ := p
      simp [hd] at hr
      subst hr
      simp at hmem

theorem C10_length_mismatch_witness :
    bser_loads LONG_MAX_64 1 (memOf [0x00, 0x01, 0x03, 0x02, 0x08]) =
      some ⟨[.error .lenMismatch], none, false⟩ :=
  (C10_length_mismatch (fun m s => bunser LONG_MAX_64 m 1 s)
    (memOf [0x00, 0x01, 0x03, 0x02, 0x08]) 1 2 (by decide) (by decide) (by decide) (by decide)
    (by unfold fitsSigned; decide) (by decide)).2 (by decide)

/-! ## The decoder on particular buffers -/

/-- C1: the buffer 00 01 03 01 07 (magic, INT8 length 1, a REAL tag as the whole
payload) passes the checks of `bser_loads`, and `bunser` then copies the 8 bytes after
the tag without any check of the remaining length: nothing is thrown, a value is
returned, and bytes outside the buffer have been read, whatever those bytes are. -/
theorem C1_real_payload_read_outside_buffer (LONG_MAX : Int) (fuel : Nat) (outside : Int → Byte) :
    (bser_loads LONG_MAX (fuel + 1) ⟨[0x00, 0x01, 0x03, 0x01, 0x07], outside⟩).map
      (fun r => (r.thrown, r.ret.isSome, r.oob)) = some ([], true, true) := rfl

/-- C2: on the buffer 00 01 03 01 07 of 5 bytes the length field is read as 1 with the
cursor left at 4, which is the number of bytes remaining, so `bunser` is entered at 4;
it returns with the cursor at 13, beyond the end of the buffer. -/
theorem C2_cursor_beyond_end_after_real (LONG_MAX : Int) (fuel : Nat) (outside : Int → Byte) :
    bunser_int ⟨[0x00, 0x01, 0x03, 0x01, 0x07], outside⟩ ⟨2, [], false⟩ 0
      = ⟨1, 1, ⟨4, [], false⟩⟩ ∧
    (1 : Int) + 4 = Mem.size ⟨[0x00, 0x01, 0x03, 0x01, 0x07], outside⟩ ∧
    (bunser LONG_MAX ⟨[0x00, 0x01, 0x03, 0x01, 0x07], outside⟩ (fuel + 1) ⟨4, [], false⟩).map
      (fun r => r.2.ptr) = some 13 ∧
    Mem.size ⟨[0x00, 0x01, 0x03, 0x01, 0x07], outside⟩ < 13 :=
  ⟨rfl, rfl, rfl, by simp [Mem.size]⟩


/-- C4: in the buffer 00 01 03 04 02 03 ff 00 the string at offset 4 declares the length
-1; `bunser_bytestring` returns 1 with that length, the span starting at 7 and the
cursor at 6, and throws nothing. -/
theorem C4_negative_string_length_accepted (outside : Int → Byte) :
    bunser_bytestring ⟨[0x00, 0x01, 0x03, 0x04, 0x02, 0x03, 0xff, 0x00], outside⟩ ⟨4, [], false⟩ 0 0
      = ⟨1, 7, -1, ⟨6, [], false⟩⟩ := by
  simp [bunser_bytestring, bunser_int, Mem.byte, Mem.bytes, intNeeded, leSigned, leUnsigned,
    St.read, St.throw, Mem.inside, Mem.size, BSER_INT8, BSER_INT16, BSER_INT32, BSER_INT64]
  decide

/-- C5: in the buffer 00 01 03 04 02 03 fc 00 the string at offset 4 declares the length
-4; `bunser_bytestring` and `bunser`, entered with the cursor at 4, both return with the
cursor at 3. -/
theorem C5_cursor_moves_backward (LONG_MAX : Int) (fuel : Nat) (outside : Int → Byte) :
    (bunser_bytestring ⟨[0x00, 0x01, 0x03, 0x04, 0x02, 0x03, 0xfc, 0x00], outside⟩
      ⟨4, [], false⟩ 0 0).st.ptr = 3 ∧
    (bunser LONG_MAX ⟨[0x00, 0x01, 0x03, 0x04, 0x02, 0x03, 0xfc, 0x00], outside⟩ (fuel + 1)
      ⟨4, [], false⟩).map (fun r => r.2.ptr) = some 3 := by
  have h : bunser_bytestring ⟨[0x00, 0x01, 0x03, 0x04, 0x02, 0x03, 0xfc, 0x00], outside⟩
      ⟨4, [], false⟩ 0 0 = ⟨1, 7, -4, ⟨3, [], false⟩⟩ := by
    simp [bunser_bytestring, bunser_int, Mem.byte, Mem.bytes, intNeeded, leSigned, leUnsigned,
      St.read, St.throw, Mem.inside, Mem.size, BSER_INT8, BSER_INT16, BSER_INT32, BSER_INT64]
    decide
  refine ⟨by rw [h], ?_⟩
  rw [bunser_string_ptr LONG_MAX ⟨[0x00, 0x01, 0x03, 0x04, 0x02, 0x03, 0xfc, 0x00], outside⟩ fuel
    ⟨4, [], false⟩ rfl]
  have hr : (⟨4, [], false⟩ : St).read ⟨[0x00, 0x01, 0x03, 0x04, 0x02, 0x03, 0xfc, 0x00], outside⟩ 4 1
      = ⟨4, [], false⟩ := by
    simp [St.read, Mem.inside, Mem.size]
  simp only [hr, h]

/-- The string at offset 7 of `loopBuffer` is decoded with the cursor left at 4. -/
theorem loopBuffer_string (outside : Int → Byte) (fuel : Nat) :
    bunser LONG_MAX_64 ⟨loopBuffer, outside⟩ (fuel + 1) ⟨7, [], false⟩
      = some (.cstr 10, ⟨4, [], false⟩) := by
  have e : ((0xfa : Byte) : Nat) = 250 := rfl
  simp [bunser, newString, toInt, loopBuffer, LONG_MAX_64, e,
    bunser_bytestring, bunser_int, Mem.byte, Mem.bytes, intNeeded, leSigned, leUnsigned,
    St.read, St.throw, Mem.inside, Mem.size, BSER_INT8, BSER_INT16, BSER_INT32, BSER_INT64,
    BSER_REAL, BSER_TRUE, BSER_FALSE, BSER_NULL, BSER_STRING, BSER_ARRAY, BSER_OBJECT, BSER_TEMPLATE]

/-- The array at offset 4 of `loopBuffer` has the elements decoded at 7 and then,
when the element at 7 leaves the cursor at 4, at 4. -/
theorem loopBuffer_array (outside : Int → Byte) (dec : St → Option (Value × St)) :
    bunser_array dec LONG_MAX_64 ⟨loopBuffer, outside⟩
        ((⟨4, [], false⟩ : St).read ⟨loopBuffer, outside⟩ 4 1)
      = arrayLoop dec 2 0 ⟨7, [], false⟩ [.undefined, .undefined] := by
  have e : newArray 2 = [.undefined, .undefined] := by
    rw [newArray, toInt_of_fits 2 (by norm_num) (by norm_num)]
    rfl
  simp [bunser_array, e, loopBuffer, LONG_MAX_64,
    bunser_int, Mem.byte, Mem.bytes, intNeeded, leSigned, leUnsigned,
    St.read, St.throw, Mem.inside, Mem.size, BSER_INT8, BSER_INT16, BSER_INT32, BSER_INT64]

/-- The loop stops without a result when its second call of the decoder has none. -/
theorem arrayLoop_second_none (dec : St → Option (Value × St)) (n i : Nat) (s s' : St)
    (arr : List Value) (e : Value) (h1 : dec s = some (e, s')) (h2 : dec s' = none) :
    arrayLoop dec (n + 2) i s arr = none := by
  simp only [arrayLoop, h1, h2]

theorem loopBuffer_none (outside : Int → Byte) (fuel : Nat) :
    bunser LONG_MAX_64 ⟨loopBuffer, outside⟩ fuel ⟨4, [], false⟩ = none := by
  induction fuel with
  | zero => rfl
  | succ n ih =>
    rw [bunser_array_tag LONG_MAX_64 ⟨loopBuffer, outside⟩ n ⟨4, [], false⟩ rfl, loopBuffer_array]
    cases n with
    | zero => simp only [arrayLoop, bunser]
    | succ k =>
      rw [arrayLoop_second_none _ 0 0 _ _ _ _ (loopBuffer_string outside k) ih]

/-- C3: on the 11-byte buffer 00 01 03 07 00 03 02 02 03 fa 00, which passes the checks
of `bser_loads` (length field 7, read with the cursor left at 4), no bound on the nesting of calls lets `bunser` return: the string element
with length -6 puts the cursor back on the array's tag at offset 4, and the array is
decoded again as its own second element. -/
theorem C3_recursion_unbounded (outside : Int → Byte) (fuel : Nat) :
    bunser_int ⟨loopBuffer, outside⟩ ⟨2, [], false⟩ 0 = ⟨1, 7, ⟨4, [], false⟩⟩ ∧
    (7 : Int) + 4 = Mem.size ⟨loopBuffer, outside⟩ ∧
    bunser LONG_MAX_64 ⟨loopBuffer, outside⟩ fuel ⟨4, [], false⟩ = none ∧
    bser_loads LONG_MAX_64 fuel ⟨loopBuffer, outside⟩ = none := by
  have h := loopBuffer_none outside fuel
  have hi : bunser_int ⟨loopBuffer, outside⟩ ⟨2, [], false⟩ 0 = ⟨1, 7, ⟨4, [], false⟩⟩ := by
    simp [loopBuffer, bunser_int, Mem.byte, Mem.bytes, intNeeded, leSigned, leUnsigned,
      St.read, St.throw, Mem.inside, Mem.size, BSER_INT8, BSER_INT16, BSER_INT32, BSER_INT64]
    decide
  have hsz : (7 : Int) + 4 = Mem.size ⟨loopBuffer, outside⟩ := by simp [Mem.size, loopBuffer]
  refine ⟨hi, hsz, h, ?_⟩
  unfold bser_loads
  rw [bser_loads_with_enters _ ⟨loopBuffer, outside⟩ 7 4 rfl rfl (by rw [← hsz]; decide) hi hsz, h]

/-- C6: in `garbageBuffer` the value of the first pair fails at offset 11 ("unhandled
bser opcode", cursor left at 11). `bunser_object` goes on: it reads the next key over
the failing byte, decodes the next value, and returns a two-entry object with the
cursor at 15; `bser_loads` hands that object to the caller's return value with the
exception pending. -/
theorem C6_decoding_goes_on_after_failure (outside : Int → Byte) (fuel : Nat) :
    bunser LONG_MAX_64 ⟨garbageBuffer, outside⟩ (fuel + 1) ⟨11, [], false⟩
      = some (.null, ⟨11, [.unhandledOpcode 0x0d], false⟩) ∧
    bunser LONG_MAX_64 ⟨garbageBuffer, outside⟩ (fuel + 2) ⟨4, [], false⟩
      = some (.obj [(.str [0x61], .null), (.str [], .bool true)],
          ⟨15, [.unhandledOpcode 0x0d], false⟩) ∧
    bser_loads LONG_MAX_64 (fuel + 2) ⟨garbageBuffer, outside⟩
      = some ⟨[.typeError (.unhandledOpcode 0x0d)],
          some (.obj [(.str [0x61], .null), (.str [], .bool true)]), false⟩ := by
  have hobj : bunser LONG_MAX_64 ⟨garbageBuffer, outside⟩ (fuel + 2) ⟨4, [], false⟩
      = some (.obj [(.str [0x61], .null), (.str [], .bool true)],
          ⟨15, [.unhandledOpcode 0x0d], false⟩) := by
    simp [bunser, bunser_object, objectLoop, objSet, newString,
      garbageBuffer, LONG_MAX_64,
      bunser_bytestring, bunser_int, Mem.byte, Mem.bytes, intNeeded, leSigned, leUnsigned,
      St.read, St.throw, Mem.inside, Mem.size, BSER_INT8, BSER_INT16, BSER_INT32, BSER_INT64,
      BSER_REAL, BSER_TRUE, BSER_FALSE, BSER_NULL, BSER_STRING, BSER_ARRAY, BSER_OBJECT,
      BSER_TEMPLATE]
  have hi : bunser_int ⟨garbageBuffer, outside⟩ ⟨2, [], false⟩ 0 = ⟨1, 11, ⟨4, [], false⟩⟩ := by
    simp [garbageBuffer, bunser_int, Mem.byte, Mem.bytes, intNeeded, leSigned, leUnsigned,
      St.read, St.throw, Mem.inside, Mem.size, BSER_INT8, BSER_INT16, BSER_INT32, BSER_INT64]
    decide
  have hsz : (11 : Int) + 4 = Mem.size ⟨garbageBuffer, outside⟩ := by
    simp [Mem.size, garbageBuffer]
  refine ⟨?_, hobj, ?_⟩
  · simp [bunser, garbageBuffer, Mem.byte, St.read, St.throw, Mem.inside, Mem.size,
      BSER_INT8, BSER_INT16, BSER_INT32, BSER_INT64,
      BSER_REAL, BSER_TRUE, BSER_FALSE, BSER_NULL, BSER_STRING, BSER_ARRAY, BSER_OBJECT,
      BSER_TEMPLATE]
  · unfold bser_loads
    rw [bser_loads_with_enters _ ⟨garbageBuffer, outside⟩ 11 4 rfl rfl (by rw [← hsz]; decide)
      hi hsz, hobj]
    rfl

/-! ## More lemmas on the readers -/

/-- Inside the cursor's reach `bunser_int` only looks at the buffer length and at the
bytes from the cursor on: two memories of the same size that agree there give the same
result. -/
theorem bunser_int_congr (m m' : Mem) (s : St) (val0 : Int) (hsize : m.size = m'.size)
    (hsame : ∀ i, s.ptr ≤ i → m.byte i = m'.byte i) :
    bunser_int m s val0 = bunser_int m' s val0 := by
  have hbytes : ∀ (n : Nat) (i : Int), s.ptr ≤ i → m.bytes i n = m'.bytes i n := by
    intro n
    induction n with
    | zero => intro i _; rfl
    | succ k ih =>
      intro i hi
      simp only [Mem.bytes, hsame i hi, ih (i + 1) (by omega)]
  simp only [bunser_int, St.read, Mem.inside, hsize, hsame s.ptr (le_refl _),
    hbytes _ (s.ptr + 1) (by omega)]

theorem newString_congr (m m' : Mem) (start len : Int) (p : Int) (hp : p < start)
    (hsame : ∀ i, i ≠ p → m.byte i = m'.byte i) :
    newString m start len = newString m' start len := by
  have hbytes : ∀ (n : Nat) (i : Int), p < i → m.bytes i n = m'.bytes i n := by
    intro n
    induction n with
    | zero => intro i _; rfl
    | succ k ih =>
      intro i hi
      simp only [Mem.bytes, hsame i (by omega), ih (i + 1) (by omega)]
  simp only [newString, hbytes _ start hp]

/-- After a successful `bunser_int` the cursor is beyond the one it was entered with. -/
theorem bunser_int_ptr_gt (m : Mem) (s : St) (val0 : Int) (h : (bunser_int m s val0).rc ≠ 0) :
    s.ptr < (bunser_int m s val0).st.ptr := by
  cases hw : intWidth (m.byte s.ptr) with
  | none => rw [bunser_int_bad_tag m s val0 hw] at h; simp at h
  | some w =>
    by_cases hrem : m.size - s.ptr < 1 + w
    · rw [bunser_int_short m s val0 w hw hrem] at h; simp at h
    · rw [bunser_int_ok m s val0 w hw (by omega)]
      simp only
      omega

/-! ## `bunser` case by case -/

theorem byte_val_cases (t : Byte) (h : ¬ 0x0b < t.val) :
    t = BSER_ARRAY ∨ t = BSER_OBJECT ∨ t = BSER_STRING ∨ t = BSER_INT8 ∨ t = BSER_INT16 ∨
    t = BSER_INT32 ∨ t = BSER_INT64 ∨ t = BSER_REAL ∨ t = BSER_TRUE ∨ t = BSER_FALSE ∨
    t = BSER_NULL ∨ t = BSER_TEMPLATE := by
  revert t
  decide!

/-- At an integer tag `bunser` is `bunser_int`, its value made a number. -/
theorem bunser_int_tag (LONG_MAX : Int) (m : Mem) (fuel : Nat) (s : St) (w : Nat)
    (h : intWidth (m.byte s.ptr) = some w) :
    bunser LONG_MAX m (fuel + 1) s =
      if (bunser_int m (s.read m s.ptr 1) 0).rc = 0
      then some (.null, (bunser_int m (s.read m s.ptr 1) 0).st)
      else some (.number (int64ToDouble (bunser_int m (s.read m s.ptr 1) 0).val),
        (bunser_int m (s.read m s.ptr 1) 0).st) := by
  have ht : m.byte s.ptr = BSER_INT8 ∨ m.byte s.ptr = BSER_INT16 ∨ m.byte s.ptr = BSER_INT32 ∨
      m.byte s.ptr = BSER_INT64 := by
    generalize m.byte s.ptr = t at h
    have hall : ∀ t : Byte, (intWidth t).isSome = true →
        t = BSER_INT8 ∨ t = BSER_INT16 ∨ t = BSER_INT32 ∨ t = BSER_INT64 := by decide!
    exact hall t (by rw [h]; rfl)
  simp only [bunser, if_pos ht]

theorem bunser_real_tag (LONG_MAX : Int) (m : Mem) (fuel : Nat) (s : St)
    (h : m.byte s.ptr = BSER_REAL) :
    bunser LONG_MAX m (fuel + 1) s =
      some (.real (m.bytes (s.ptr + 1) 8),
        { (s.read m s.ptr 1).read m (s.ptr + 1) 8 with ptr := s.ptr + 1 + 8 }) := by
  simp only [bunser, h]
  simp +decide only [if_true, if_false]

theorem bunser_true_tag (LONG_MAX : Int) (m : Mem) (fuel : Nat) (s : St)
    (h : m.byte s.ptr = BSER_TRUE) :
    bunser LONG_MAX m (fuel + 1) s
      = some (.bool true, { s.read m s.ptr 1 with ptr := s.ptr + 1 }) := by
  simp only [bunser, h]
  simp +decide only [if_true, if_false]

theorem bunser_false_tag (LONG_MAX : Int) (m : Mem) (fuel : Nat) (s : St)
    (h : m.byte s.ptr = BSER_FALSE) :
    bunser LONG_MAX m (fuel + 1) s
      = some (.bool false, { s.read m s.ptr 1 with ptr := s.ptr + 1 }) := by
  simp only [bunser, h]
  simp +decide only [if_true, if_false]

theorem bunser_null_tag (LONG_MAX : Int) (m : Mem) (fuel : Nat) (s : St)
    (h : m.byte s.ptr = BSER_NULL) :
    bunser LONG_MAX m (fuel + 1) s
      = some (.null, { s.read m s.ptr 1 with ptr := s.ptr + 1 }) := by
  simp only [bunser, h]
  simp +decide only [if_true, if_false]

theorem bunser_string_tag (LONG_MAX : Int) (m : Mem) (fuel : Nat) (s : St)
    (h : m.byte s.ptr = BSER_STRING) :
    bunser LONG_MAX m (fuel + 1) s =
      if (bunser_bytestring m (s.read m s.ptr 1) 0 0).rc = 0
      then some (.null, (bunser_bytestring m (s.read m s.ptr 1) 0 0).st)
      else if (bunser_bytestring m (s.read m s.ptr 1) 0 0).len > LONG_MAX
      then some (.null, (bunser_bytestring m (s.read m s.ptr 1) 0 0).st.throw
        .stringExceedsLimits)
      else some (newString m (bunser_bytestring m (s.read m s.ptr 1) 0 0).start
          (bunser_bytestring m (s.read m s.ptr 1) 0 0).len,
        (bunser_bytestring m (s.read m s.ptr 1) 0 0).st) := by
  simp only [bunser, h]
  simp +decide only [if_true, if_false]

theorem bunser_object_tag (LONG_MAX : Int) (m : Mem) (fuel : Nat) (s : St)
    (h : m.byte s.ptr = BSER_OBJECT) :
    bunser LONG_MAX m (fuel + 1) s =
      match bunser_object (bunser LONG_MAX m fuel) LONG_MAX m (s.read m s.ptr 1) with
      | none => none
      | some (kvs, s') => some (.obj kvs, s') := by
  simp only [bunser, h]
  simp +decide only [if_true, if_false]

theorem bunser_template_tag (LONG_MAX : Int) (m : Mem) (fuel : Nat) (s : St)
    (h : m.byte s.ptr = BSER_TEMPLATE) :
    bunser LONG_MAX m (fuel + 1) s =
      match bunser_template (bunser LONG_MAX m fuel) LONG_MAX m (s.read m s.ptr 1) with
      | none => none
      | some (xs, s') => some (.arr xs, s') := by
  simp only [bunser, h]
  simp +decide only [if_true, if_false]

/-- The `default` case of `bunser`. -/
theorem bunser_default (LONG_MAX : Int) (m : Mem) (fuel : Nat) (s : St)
    (h : 0x0b < (m.byte s.ptr).val) :
    bunser LONG_MAX m (fuel + 1) s
      = some (.null, (s.read m s.ptr 1).throw (.unhandledOpcode (m.byte s.ptr))) := by
  have hne : ∀ t : Byte, 0x0b < t.val →
      ¬ (t = BSER_INT8 ∨ t = BSER_INT16 ∨ t = BSER_INT32 ∨ t = BSER_INT64) ∧ t ≠ BSER_REAL ∧
      t ≠ BSER_TRUE ∧ t ≠ BSER_FALSE ∧ t ≠ BSER_NULL ∧ t ≠ BSER_STRING ∧ t ≠ BSER_ARRAY ∧
      t ≠ BSER_OBJECT ∧ t ≠ BSER_TEMPLATE := by decide!
  obtain ⟨h1, h2, h3, h4, h5, h6, h7, h8, h9⟩ := hne _ h
  simp only [bunser, if_neg h1, if_neg h2, if_neg h3, if_neg h4, if_neg h5, if_neg h6, if_neg h7,
    if_neg h8, if_neg h9]

/-! ## Properties of `bunser` and `bunser_template` -/

/-- C18: at a byte that is none of the tags 0x00..0x0b (the SKIP byte 0x0c among them)
`bunser` throws "unhandled bser opcode" for that byte, returns null and leaves the cursor
where it was. This is every call of `bunser`, whoever makes it: `bser_loads` for the top
level value, the loop of `bunser_array` for an element, the loop of `bunser_object` for a
value. -/
theorem C18_unknown_tag (LONG_MAX : Int) (m : Mem) (fuel : Nat) (s : St)
    (h : 0x0b < (m.byte s.ptr).val) :
    bunser LONG_MAX m (fuel + 1) s
      = some (.null, ⟨s.ptr, s.thrown ++ [.unhandledOpcode (m.byte s.ptr)],
          s.oob || !m.inside s.ptr 1⟩) :=
  bunser_default LONG_MAX m fuel s h

theorem C18_unknown_tag_witness :
    bunser LONG_MAX_64 (memOf [0x00, 0x01, 0x03, 0x01, 0x0c]) 1 ⟨4, [], false⟩
      = some (.null, ⟨4, [.unhandledOpcode 0x0c], false⟩) :=
  C18_unknown_tag LONG_MAX_64 (memOf [0x00, 0x01, 0x03, 0x01, 0x0c]) 0 ⟨4, [], false⟩
    (by decide)

/-- C17: when the byte after a TEMPLATE tag lies in the buffer and is not the ARRAY tag,
`bunser_template` throws "expected array to follow template" and nothing else, returns
the empty array and leaves the cursor and the rest of the state as they were, whatever
decoder it is given for the elements (no key and no row is decoded); `bunser` entered on
such a TEMPLATE tag returns that empty array. -/
theorem C17_template_without_array (dec : St → Option (Value × St)) (LONG_MAX : Int) (m : Mem)
    (fuel : Nat) (s : St)
    (hin : 0 ≤ s.ptr ∧ s.ptr + 1 < m.size) (hne : m.byte (s.ptr + 1) ≠ BSER_ARRAY) :
    bunser_template dec LONG_MAX m s = some ([], ⟨s.ptr, s.thrown ++ [.expectedArray], s.oob⟩) ∧
    (m.byte s.ptr = BSER_TEMPLATE →
      bunser LONG_MAX m (fuel + 1) s
        = some (.arr [], ⟨s.ptr, s.thrown ++ [.expectedArray], s.oob⟩)) := by
  have hr : ∀ t : St, t.ptr = s.ptr → t.read m (s.ptr + 1) 1 = t := fun t _ =>
    read_inside t m (s.ptr + 1) 1 (by omega) (by omega)
  have ht : ∀ dec' : St → Option (Value × St),
      bunser_template dec' LONG_MAX m s
        = some ([], ⟨s.ptr, s.thrown ++ [.expectedArray], s.oob⟩) := by
    intro dec'
    simp only [bunser_template, hr s rfl, if_pos hne]
    rfl
  refine ⟨ht dec, fun htag => ?_⟩
  rw [bunser_template_tag LONG_MAX m fuel s htag, read_inside s m s.ptr 1 hin.1 (by omega), ht]

theorem C17_template_without_array_witness :
    bunser LONG_MAX_64 (memOf [0x0b, 0x02, 0x03, 0x00]) 1 ⟨0, [], false⟩
      = some (.arr [], ⟨0, [.expectedArray], false⟩) :=
  (C17_template_without_array (fun _ => none) LONG_MAX_64 (memOf [0x0b, 0x02, 0x03, 0x00]) 0
    ⟨0, [], false⟩ (by decide) (by decide)).2 (by decide)

/-- C16: when a TEMPLATE tag is followed by an ARRAY tag and an integer of any width
encoding the count 0, all inside the buffer, `bunser_template` returns the empty array,
throws nothing and leaves the cursor just after the count. Nothing is assumed of the
bytes after the count, and the outcome is the same whatever decoder is given for the
elements: no row count and no row is read. -/
theorem C16_template_empty_keys (dec : St → Option (Value × St)) (LONG_MAX : Int) (m : Mem)
    (s : St) (w : Nat)
    (hL : 0 ≤ LONG_MAX) (hp : 0 ≤ s.ptr) (harr : m.byte (s.ptr + 1) = BSER_ARRAY)
    (htag : intWidth (m.byte (s.ptr + 2)) = some w) (hfit : s.ptr + 3 + w ≤ m.size)
    (hzero : twosComplementLE w 0 = m.bytes (s.ptr + 3) w) :
    bunser_template dec LONG_MAX m s = some ([], { s with ptr := s.ptr + 3 + w }) := by
  have hpos := intWidth_pos _ _ htag
  have hcnt : bunser_int m { s with ptr := s.ptr + 1 + 1 } 0
      = ⟨1, 0, { s with ptr := s.ptr + 3 + w }⟩ := by
    rw [bunser_int_eq m { s with ptr := s.ptr + 1 + 1 } 0 w 0
      (by simpa only [show s.ptr + 1 + 1 = s.ptr + 2 by ring] using htag)
      (by simp only; omega) (by simp only; omega)
      (by unfold fitsSigned; constructor <;> [skip; positivity]; simp)
      (by simpa only [show s.ptr + 1 + 1 + 1 = s.ptr + 3 by ring] using hzero)]
    simp only [IntRes.mk.injEq, St.mk.injEq, true_and, and_true]
    omega
  have hr : s.read m (s.ptr + 1) 1 = s := read_inside s m (s.ptr + 1) 1 (by omega) (by omega)
  have hgt : ¬ (0 : Int) > LONG_MAX := by omega
  simp [bunser_template, hr, harr, bunser_array, hcnt, hgt, arrayLoop, newArray_zero]

theorem C16_template_empty_keys_witness :
    bunser_template (fun _ => none) LONG_MAX_64 (memOf [0x0b, 0x00, 0x03, 0x00, 0xff, 0xff])
      ⟨0, [], false⟩ = some ([], ⟨4, [], false⟩) :=
  C16_template_empty_keys (fun _ => none) LONG_MAX_64 (memOf [0x0b, 0x00, 0x03, 0x00, 0xff, 0xff])
    ⟨0, [], false⟩ 1 (by decide) (by decide) (by decide) (by decide) (by decide) (by decide)

/-- C19: in the buffer 00 01 03 09 06 01 00 00 00 00 00 20 00 the value at offset 4 is
the INT64 2^53 + 1. `bunser_int` reads it exactly; `bunser` hands it to
`Nan::New<v8::Number>`, whose argument is a double, and the number returned is 2^53. -/
theorem C19_int64_rounded_to_double (LONG_MAX : Int) (fuel : Nat) (outside : Int → Byte) :
    bunser_int ⟨[0x00, 0x01, 0x03, 0x09, 0x06, 0x01, 0x00, 0x00, 0x00, 0x00, 0x00, 0x20, 0x00],
        outside⟩ ⟨4, [], false⟩ 0 = ⟨1, 9007199254740993, ⟨13, [], false⟩⟩ ∧
    bunser LONG_MAX ⟨[0x00, 0x01, 0x03, 0x09, 0x06, 0x01, 0x00, 0x00, 0x00, 0x00, 0x00, 0x20, 0x00],
        outside⟩ (fuel + 1) ⟨4, [], false⟩
      = some (.number 9007199254740992, ⟨13, [], false⟩) := by
  have hi : bunser_int
      ⟨[0x00, 0x01, 0x03, 0x09, 0x06, 0x01, 0x00, 0x00, 0x00, 0x00, 0x00, 0x20, 0x00], outside⟩
      ⟨4, [], false⟩ 0 = ⟨1, 9007199254740993, ⟨13, [], false⟩⟩ :=
    bunser_int_eq _ ⟨4, [], false⟩ 0 8 9007199254740993 rfl (by decide) (by simp [Mem.size])
      (by unfold fitsSigned; norm_num)
      (by
        have e : twosComplementLE 8 9007199254740993
            = [0x01, 0x00, 0x00, 0x00, 0x00, 0x00, 0x20, 0x00] := by decide
        rw [e]
        rfl)
  refine ⟨hi, ?_⟩
  rw [bunser_int_tag LONG_MAX
    ⟨[0x00, 0x01, 0x03, 0x09, 0x06, 0x01, 0x00, 0x00, 0x00, 0x00, 0x00, 0x20, 0x00], outside⟩
    fuel ⟨4, [], false⟩ 8 rfl]
  have hr : (⟨4, [], false⟩ : St).read
      ⟨[0x00, 0x01, 0x03, 0x09, 0x06, 0x01, 0x00, 0x00, 0x00, 0x00, 0x00, 0x20, 0x00], outside⟩
      (St.ptr ⟨4, [], false⟩) 1 = ⟨4, [], false⟩ := by
    simp [St.read, Mem.inside, Mem.size]
  rw [hr, hi]
  have hd : int64ToDouble 9007199254740993 = 9007199254740992 := by
    simp [int64ToDouble, excessBits]
  simp [hd]

/-! ## Negative counts -/

/-- When the count after an ARRAY tag is read as a negative `n`, `bunser_array` throws
nothing and returns the array `Nan::New<v8::Array>(n)` as it was made, with the cursor
just past the count. -/
theorem bunser_array_negative (dec : St → Option (Value × St)) (LONG_MAX : Int) (m : Mem)
    (s : St) (n : Int) (s' : St) (hL : 0 ≤ LONG_MAX) (hneg : n < 0)
    (h : bunser_int m { s with ptr := s.ptr + 1 } 0 = ⟨1, n, s'⟩) :
    bunser_array dec LONG_MAX m s = some (newArray n, s') := by
  have hgt : ¬ n > LONG_MAX := by omega
  have hto : n.toNat = 0 := by omega
  simp [bunser_array, h, hgt, hto, arrayLoop]

/-- When the row count after a key array that is not empty is read as a negative `n`,
`bunser_template` throws nothing and returns the array `Nan::New<v8::Array>(n)` as it
was made, with the cursor just past the row count. -/
theorem bunser_template_negative (dec : St → Option (Value × St)) (LONG_MAX : Int) (m : Mem)
    (s : St) (n : Int) (s' : St) (keys : List Value) (s2 : St) (hL : 0 ≤ LONG_MAX)
    (hneg : n < 0) (harr : m.byte (s.ptr + 1) = BSER_ARRAY)
    (hkeys : bunser_array dec LONG_MAX m { s.read m (s.ptr + 1) 1 with ptr := s.ptr + 1 }
      = some (keys, s2))
    (hne : keys ≠ []) (h : bunser_int m s2 0 = ⟨1, n, s'⟩) :
    bunser_template dec LONG_MAX m s = some (newArray n, s') := by
  have hgt : ¬ n > LONG_MAX := by omega
  have hto : n.toNat = 0 := by omega
  have hlen : keys.length ≠ 0 := by
    cases keys with
    | nil => exact absurd rfl hne
    | cons k ks => simp
  simp [bunser_template, harr, hkeys, hlen, h, hgt, hto, templateRows]

/-- C13: a negative count is not rejected. `bser_loads` on 00 01 03 03 00 03 ff, an
array whose count is -1, and on 00 01 03 0a 0b 00 03 01 02 03 01 78 03 ff, a template
with the key "x" whose row count is -1, throws nothing and returns an empty array. On
00 01 03 0a 00 06 01 00 00 00 ff ff ff ff, an array whose count is the INT64
-4294967295, it throws nothing and returns an array of one slot, never set: the count
reaches `Nan::New<v8::Array>` as the `int` 1. -/
theorem C13_negative_count_not_rejected :
    bser_loads LONG_MAX_64 2 (memOf [0x00, 0x01, 0x03, 0x03, 0x00, 0x03, 0xff])
      = some ⟨[], some (.arr []), false⟩ ∧
    bser_loads LONG_MAX_64 2 (memOf [0x00, 0x01, 0x03, 0x0a, 0x0b, 0x00, 0x03, 0x01, 0x02, 0x03,
        0x01, 0x78, 0x03, 0xff])
      = some ⟨[], some (.arr []), false⟩ ∧
    bser_loads LONG_MAX_64 2 (memOf [0x00, 0x01, 0x03, 0x0a, 0x00, 0x06, 0x01, 0x00, 0x00, 0x00,
        0xff, 0xff, 0xff, 0xff])
      = some ⟨[], some (.arr [.undefined]), false⟩ := by
  have e1 : newArray (-1) = [] := newArray_of_negative _ (by unfold toInt; norm_num)
  have e2 : newArray 1 = [.undefined] := by
    rw [newArray, toInt_of_fits 1 (by norm_num) (by norm_num)]
    rfl
  have e3 : newArray (-4294967295) = [.undefined] := by
    have e : toInt (-4294967295) = 1 := by unfold toInt; norm_num
    rw [newArray, e]
    rfl
  refine ⟨?_, ?_, ?_⟩
  · simp [bser_loads, bser_loads_with, bunser, bunser_array, arrayLoop, e1,
      memOf, LONG_MAX_64, EMPTY_HEADER, Fin.coe_ofNat_eq_mod,
      bunser_int, Mem.byte, Mem.bytes, intNeeded, leSigned, leUnsigned,
      St.read, St.throw, Mem.inside, Mem.size, BSER_INT8, BSER_INT16, BSER_INT32, BSER_INT64,
      BSER_REAL, BSER_TRUE, BSER_FALSE, BSER_NULL, BSER_STRING, BSER_ARRAY, BSER_OBJECT,
      BSER_TEMPLATE]
  · simp [bser_loads, bser_loads_with, bunser, bunser_array, arrayLoop, arrSet, bunser_template,
      templateRows, newString, e1, e2, memOf, LONG_MAX_64, EMPTY_HEADER, Fin.coe_ofNat_eq_mod,
      bunser_bytestring, bunser_int, Mem.byte, Mem.bytes, intNeeded, leSigned, leUnsigned,
      St.read, St.throw, Mem.inside, Mem.size, BSER_INT8, BSER_INT16, BSER_INT32, BSER_INT64,
      BSER_REAL, BSER_TRUE, BSER_FALSE, BSER_NULL, BSER_STRING, BSER_ARRAY, BSER_OBJECT,
      BSER_TEMPLATE]
  · have hi : bunser_int (memOf [0x00, 0x01, 0x03, 0x0a, 0x00, 0x06, 0x01, 0x00, 0x00, 0x00,
        0xff, 0xff, 0xff, 0xff]) ⟨2, [], false⟩ 0 = ⟨1, 10, ⟨4, [], false⟩⟩ := by
      simp [memOf, bunser_int, Mem.byte, Mem.bytes, intNeeded, leSigned, leUnsigned,
        St.read, St.throw, Mem.inside, Mem.size, BSER_INT8, BSER_INT16, BSER_INT32, BSER_INT64]
      decide
    have hn : bunser_int (memOf [0x00, 0x01, 0x03, 0x0a, 0x00, 0x06, 0x01, 0x00, 0x00, 0x00,
        0xff, 0xff, 0xff, 0xff]) ⟨5, [], false⟩ 0 = ⟨1, -4294967295, ⟨14, [], false⟩⟩ :=
      bunser_int_eq _ ⟨5, [], false⟩ 0 8 (-4294967295) rfl (by decide) (by simp [Mem.size, memOf])
        (by unfold fitsSigned; norm_num)
        (by
          have e : twosComplementLE 8 (-4294967295)
              = [0x01, 0x00, 0x00, 0x00, 0xff, 0xff, 0xff, 0xff] := by
            simp [twosComplementLE]
            decide
          rw [e]
          rfl)
    have hr : (⟨4, [], false⟩ : St).read (memOf [0x00, 0x01, 0x03, 0x0a, 0x00, 0x06, 0x01, 0x00,
        0x00, 0x00, 0xff, 0xff, 0xff, 0xff]) (St.ptr ⟨4, [], false⟩) 1 = ⟨4, [], false⟩ := by
      simp [St.read, Mem.inside, Mem.size, memOf]
    unfold bser_loads
    rw [bser_loads_with_enters _ (memOf [0x00, 0x01, 0x03, 0x0a, 0x00, 0x06, 0x01, 0x00, 0x00,
      0x00, 0xff, 0xff, 0xff, 0xff]) 10 4 rfl rfl (by simp [Mem.size, memOf]) hi
      (by simp [Mem.size, memOf])]
    rw [bunser_array_tag LONG_MAX_64 (memOf [0x00, 0x01, 0x03, 0x0a, 0x00, 0x06, 0x01, 0x00, 0x00,
      0x00, 0xff, 0xff, 0xff, 0xff]) 1 ⟨4, [], false⟩ rfl, hr,
      bunser_array_negative _ LONG_MAX_64 _ ⟨4, [], false⟩ (-4294967295) ⟨14, [], false⟩
        (by decide) (by norm_num) hn, e3]
    rfl

/-! ## Reading bytes that the buffer holds -/

theorem byte_at (m : Mem) (pre rest : List Byte) (b : Byte) (h : m.data = pre ++ b :: rest) :
    m.byte (pre.length : Int) = b := by
  have hneg : ¬ ((pre.length : Int) < 0) := by omega
  simp only [Mem.byte, hneg, if_false, h, Int.toNat_ofNat]
  rw [List.getD_eq_getElem?_getD, List.getElem?_append_right (le_refl _)]
  simp

theorem bytes_at (m : Mem) (bs : List Byte) :
    ∀ (pre post : List Byte), m.data = pre ++ bs ++ post →
      m.bytes (pre.length : Int) bs.length = bs := by
  induction bs with
  | nil => intro pre post _; rfl
  | cons b bs ih =>
    intro pre post h
    have hb : m.byte (pre.length : Int) = b :=
      byte_at m pre (bs ++ post) b (by simpa using h)
    have ht := ih (pre ++ [b]) post (by simpa using h)
    simp only [List.length_append, List.length_singleton, Nat.cast_add, Nat.cast_one] at ht
    simp only [List.length_cons, Mem.bytes, hb, ht]

theorem size_at (m : Mem) (pre bs post : List Byte) (h : m.data = pre ++ bs ++ post) :
    m.size = (pre.length : Int) + bs.length + post.length := by
  simp only [Mem.size, h, List.length_append, Nat.cast_add]

/-- Reading bytes the buffer holds leaves the state as it was. -/
theorem read_at (s : St) (m : Mem) (pre bs post : List Byte) (n : Int)
    (h : m.data = pre ++ bs ++ post) (hn : n ≤ bs.length) :
    s.read m (pre.length : Int) n = s :=
  read_inside s m _ n (by omega) (by rw [size_at m pre bs post h]; omega)

/-- Where `long` has 64 bits, every count an integer encoding can carry is within
`LONG_MAX`. -/
theorem isIntEnc_le_LONG_MAX_64 (bs : List Byte) (n : Int) (h : IsIntEnc bs n) :
    n ≤ LONG_MAX_64 := by
  obtain ⟨tag, w, hw, hfit, _⟩ := h
  have hcases : w = 1 ∨ w = 2 ∨ w = 4 ∨ w = 8 := by
    unfold intWidth at hw
    split_ifs at hw <;> simp_all
  unfold fitsSigned at hfit
  unfold LONG_MAX_64
  rcases hcases with rfl | rfl | rfl | rfl <;> norm_num at hfit ⊢ <;> omega

theorem isIntEnc_length (bs : List Byte) (n : Int) (h : IsIntEnc bs n) : 0 < bs.length := by
  obtain ⟨tag, w, _, _, rfl⟩ := h
  simp

/-- `bunser_int` on an encoded integer that the buffer holds. -/
theorem bunser_int_at (m : Mem) (pre hd post : List Byte) (n : Int) (thrown : List TypeErr)
    (oob : Bool) (val0 : Int) (h : m.data = pre ++ hd ++ post) (hi : IsIntEnc hd n) :
    bunser_int m ⟨(pre.length : Int), thrown, oob⟩ val0
      = ⟨1, n, ⟨((pre ++ hd).length : Int), thrown, oob⟩⟩ := by
  obtain ⟨tag, w, hw, hfit, rfl⟩ := hi
  have hb : m.byte (pre.length : Int) = tag :=
    byte_at m pre (twosComplementLE w n ++ post) tag (by simpa using h)
  have hbs := bytes_at m (twosComplementLE w n) (pre ++ [tag]) post (by simpa using h)
  simp only [List.length_append, List.length_singleton, Nat.cast_add, Nat.cast_one,
    twosComplementLE_length] at hbs
  have hsz := size_at m pre (tag :: twosComplementLE w n) post h
  simp only [List.length_cons, twosComplementLE_length, Nat.cast_add, Nat.cast_one] at hsz
  rw [bunser_int_eq m ⟨(pre.length : Int), thrown, oob⟩ val0 w n (by simpa only [hb] using hw)
    (by simp only; omega) (by simp only; omega) hfit (by simpa only using hbs.symm)]
  simp only [List.length_append, List.length_cons, twosComplementLE_length, Nat.cast_add,
    Nat.cast_one]

/-- `bunser_bytestring` on a length-prefixed string that the buffer holds, whatever
byte introduces it. -/
theorem bunser_bytestring_at (m : Mem) (pre len payload post : List Byte) (mark : Byte)
    (thrown : List TypeErr) (oob : Bool) (start0 len0 : Int)
    (h : m.data = pre ++ (mark :: len ++ payload) ++ post)
    (hi : IsIntEnc len payload.length) :
    bunser_bytestring m ⟨(pre.length : Int), thrown, oob⟩ start0 len0
      = ⟨1, ((pre ++ mark :: len).length : Int), payload.length,
          ⟨((pre ++ (mark :: len ++ payload)).length : Int), thrown, oob⟩⟩ ∧
    newString m ((pre ++ mark :: len).length : Int) payload.length = .str payload := by
  have hint := bunser_int_at m (pre ++ [mark]) len (payload ++ post) payload.length thrown oob
    len0 (by simpa using h) hi
  have hsz := size_at m pre (mark :: len ++ payload) post h
  have hpay := bytes_at m payload (pre ++ mark :: len) post (by simpa using h)
  simp only [List.length_append, List.length_singleton, Nat.cast_add, Nat.cast_one,
    List.length_cons, List.length_nil, Nat.cast_zero, zero_add] at hint hsz hpay ⊢
  constructor
  · have hle : ¬ ((pre.length : Int) + 1 + len.length + payload.length > m.size) := by
      rw [hsz]; omega
    simp only [bunser_bytestring, hint]
    simp only [hle, if_false]
    simp only [one_ne_zero, if_false, StrRes.mk.injEq, St.mk.injEq, true_and, and_true]
    omega
  · have hpos : (0 : Int) ≤ (payload.length : Int) := by omega
    simp only [newString, hpos, if_true, Int.toNat_ofNat, hpay]

/-! ## The loops on well-formed input -/

theorem arrayLoop_decodes (dec : St → Option (Value × St)) (m : Mem)
    (elems : List (List Byte × Value)) (hdec : ∀ e ∈ elems, Decodes dec m e.1 e.2) :
    ∀ (pre post : List Byte) (thrown : List TypeErr) (oob : Bool) (done : List Value) (h : Nat),
      m.data = pre ++ (elems.map Prod.fst).flatten ++ post →
      arrayLoop dec elems.length done.length ⟨(pre.length : Int), thrown, oob⟩
          (done ++ List.replicate h .undefined)
        = some (done ++ elems.map Prod.snd ++ List.replicate (h - elems.length) .undefined,
            ⟨((pre ++ (elems.map Prod.fst).flatten).length : Int), thrown, oob⟩) := by
  induction elems with
  | nil => intro pre post thrown oob done h _; simp [arrayLoop]
  | cons e es ih =>
    intro pre post thrown oob done h hm
    have he := hdec e (List.mem_cons_self _ _) pre ((es.map Prod.fst).flatten ++ post) thrown oob
      (by simpa using hm)
    have ht := ih (fun x hx => hdec x (List.mem_cons_of_mem _ hx)) (pre ++ e.1) post thrown oob
      (done ++ [e.2]) (h - 1) (by simpa using hm)
    have hl : (done ++ [e.2]).length = done.length + 1 := by simp
    rw [hl] at ht
    simp only [List.length_cons, arrayLoop, he, arrSet_next, ht]
    simp [Nat.sub_sub, Nat.add_comm]

/-- `bunser_array` on a counted sequence of encoded values that the buffer holds. -/
theorem bunser_array_decodes (dec : St → Option (Value × St)) (LONG_MAX : Int) (m : Mem)
    (cnt : List Byte) (elems : List (List Byte × Value)) (mark : Byte)
    (hcnt : IsIntEnc cnt elems.length) (hmax : (elems.length : Int) ≤ LONG_MAX)
    (hdec : ∀ e ∈ elems, Decodes dec m e.1 e.2)
    (pre post : List Byte) (thrown : List TypeErr) (oob : Bool)
    (h : m.data = pre ++ (mark :: cnt ++ (elems.map Prod.fst).flatten) ++ post) :
    bunser_array dec LONG_MAX m ⟨(pre.length : Int), thrown, oob⟩
      = some (elems.map Prod.snd,
          ⟨((pre ++ (mark :: cnt ++ (elems.map Prod.fst).flatten)).length : Int), thrown, oob⟩) := by
  have hint := bunser_int_at m (pre ++ [mark]) cnt ((elems.map Prod.fst).flatten ++ post)
    elems.length thrown oob 0 (by simpa using h) hcnt
  have hloop := arrayLoop_decodes dec m elems hdec (pre ++ [mark] ++ cnt) post thrown oob []
    (newArray (elems.length : Int)).length (by simpa using h)
  have hgt : ¬ ((elems.length : Int) > LONG_MAX) := by omega
  have hnew := newArray_eq (elems.length : Int)
  have hsub : (newArray (elems.length : Int)).length - elems.length = 0 :=
    Nat.sub_eq_zero_of_le (newArray_length_le elems.length)
  simp only [List.length_append, List.length_singleton, Nat.cast_add, Nat.cast_one] at hint
  simp only [bunser_array, hint, hgt, if_false, one_ne_zero, Int.toNat_ofNat]
  simp only [List.length_append, List.length_singleton, Nat.cast_add, Nat.cast_one,
    List.length_nil] at hloop
  rw [hnew, hloop, hsub]
  simp only [List.nil_append, List.replicate_zero, List.append_nil, List.length_append,
    List.length_cons, Nat.cast_add, Nat.cast_one,
    Option.some.injEq, Prod.mk.injEq, St.mk.injEq, true_and, and_true]
  omega

theorem objectLoop_decodes (dec : St → Option (Value × St)) (LONG_MAX : Int) (m : Mem)
    (pairs : List PairEnc)
    (hp : ∀ p ∈ pairs, IsIntEnc p.keyLen p.key.length ∧ (p.key.length : Int) ≤ LONG_MAX ∧
      Decodes dec m p.bytes p.value) :
    ∀ (pre post : List Byte) (thrown : List TypeErr) (oob : Bool) (obj : List (Value × Value)),
      m.data = pre ++ (pairs.map PairEnc.all).flatten ++ post →
      objectLoop dec LONG_MAX m pairs.length ⟨(pre.length : Int), thrown, oob⟩ obj
        = some (obj ++ pairs.map (fun p => (Value.str p.key, p.value)),
            ⟨((pre ++ (pairs.map PairEnc.all).flatten).length : Int), thrown, oob⟩) := by
  induction pairs with
  | nil => intro pre post thrown oob obj _; simp [objectLoop]
  | cons p ps ih =>
    intro pre post thrown oob obj h
    obtain ⟨hlen, hmax, hval⟩ := hp p (List.mem_cons_self _ _)
    have hkey := bunser_bytestring_at m pre p.keyLen p.key
      (p.bytes ++ (ps.map PairEnc.all).flatten ++ post) BSER_STRING thrown oob 0 0
      (by simpa [PairEnc.all] using h) hlen
    have hv := hval (pre ++ (BSER_STRING :: p.keyLen ++ p.key))
      ((ps.map PairEnc.all).flatten ++ post) thrown oob (by simpa [PairEnc.all] using h)
    have ht := ih (fun x hx => hp x (List.mem_cons_of_mem _ hx)) (pre ++ p.all) post thrown oob
      (objSet obj (.str p.key) p.value) (by simpa using h)
    have hgt : ¬ ((p.key.length : Int) > LONG_MAX) := by omega
    have e1 : pre ++ (BSER_STRING :: p.keyLen ++ p.key) ++ p.bytes = pre ++ p.all := by
      simp [PairEnc.all]
    rw [e1] at hv
    simp only [List.length_cons, objectLoop, hkey.1, hkey.2, hgt, if_false, one_ne_zero, hv, ht]
    simp [objSet]

/-- `bunser_object` on a counted sequence of encoded pairs that the buffer holds. -/
theorem bunser_object_decodes (dec : St → Option (Value × St)) (LONG_MAX : Int) (m : Mem)
    (cnt : List Byte) (pairs : List PairEnc) (mark : Byte)
    (hcnt : IsIntEnc cnt pairs.length)
    (hp : ∀ p ∈ pairs, IsIntEnc p.keyLen p.key.length ∧ (p.key.length : Int) ≤ LONG_MAX ∧
      Decodes dec m p.bytes p.value)
    (pre post : List Byte) (thrown : List TypeErr) (oob : Bool)
    (h : m.data = pre ++ (mark :: cnt ++ (pairs.map PairEnc.all).flatten) ++ post) :
    bunser_object dec LONG_MAX m ⟨(pre.length : Int), thrown, oob⟩
      = some (pairs.map (fun p => (Value.str p.key, p.value)),
          ⟨((pre ++ (mark :: cnt ++ (pairs.map PairEnc.all).flatten)).length : Int),
            thrown, oob⟩) := by
  have hint := bunser_int_at m (pre ++ [mark]) cnt ((pairs.map PairEnc.all).flatten ++ post)
    pairs.length thrown oob 0 (by simpa using h) hcnt
  have hloop := objectLoop_decodes dec LONG_MAX m pairs hp (pre ++ [mark] ++ cnt) post thrown oob
    [] (by simpa using h)
  simp only [List.length_append, List.length_singleton, Nat.cast_add, Nat.cast_one] at hint
  simp only [bunser_object, hint, if_false, one_ne_zero, Int.toNat_ofNat]
  simp only [List.length_append, List.length_singleton, Nat.cast_add, Nat.cast_one] at hloop
  rw [hloop]
  simp only [List.nil_append, List.length_append, List.length_cons, Nat.cast_add, Nat.cast_one,
    Option.some.injEq, Prod.mk.injEq, St.mk.injEq, true_and, and_true]
  omega

/-- The loop of `bunser_object` on pairs whose keys are introduced by arbitrary bytes. -/
theorem objectLoop_decodes_marked (dec : St → Option (Value × St)) (LONG_MAX : Int) (m : Mem)
    (pairs : List (Byte × PairEnc))
    (hp : ∀ p ∈ pairs, IsIntEnc p.2.keyLen p.2.key.length ∧ (p.2.key.length : Int) ≤ LONG_MAX ∧
      Decodes dec m p.2.bytes p.2.value) :
    ∀ (pre post : List Byte) (thrown : List TypeErr) (oob : Bool) (obj : List (Value × Value)),
      m.data = pre ++ (pairs.map (fun p => p.1 :: p.2.keyLen ++ p.2.key ++ p.2.bytes)).flatten
        ++ post →
      objectLoop dec LONG_MAX m pairs.length ⟨(pre.length : Int), thrown, oob⟩ obj
        = some (obj ++ pairs.map (fun p => (Value.str p.2.key, p.2.value)),
            ⟨((pre ++ (pairs.map
              (fun p => p.1 :: p.2.keyLen ++ p.2.key ++ p.2.bytes)).flatten).length : Int),
              thrown, oob⟩) := by
  induction pairs with
  | nil => intro pre post thrown oob obj _; simp [objectLoop]
  | cons p ps ih =>
    intro pre post thrown oob obj h
    obtain ⟨hlen, hmax, hval⟩ := hp p (List.mem_cons_self _ _)
    have hkey := bunser_bytestring_at m pre p.2.keyLen p.2.key
      (p.2.bytes ++ (ps.map (fun p => p.1 :: p.2.keyLen ++ p.2.key ++ p.2.bytes)).flatten ++ post)
      p.1 thrown oob 0 0 (by simpa using h) hlen
    have hv := hval (pre ++ (p.1 :: p.2.keyLen ++ p.2.key))
      ((ps.map (fun p => p.1 :: p.2.keyLen ++ p.2.key ++ p.2.bytes)).flatten ++ post) thrown oob
      (by simpa using h)
    have ht := ih (fun x hx => hp x (List.mem_cons_of_mem _ hx))
      (pre ++ (p.1 :: p.2.keyLen ++ p.2.key ++ p.2.bytes)) post thrown oob
      (objSet obj (.str p.2.key) p.2.value) (by simpa using h)
    have hgt : ¬ ((p.2.key.length : Int) > LONG_MAX) := by omega
    have e1 : pre ++ (p.1 :: p.2.keyLen ++ p.2.key) ++ p.2.bytes
        = pre ++ (p.1 :: p.2.keyLen ++ p.2.key ++ p.2.bytes) := by simp
    rw [e1] at hv
    simp only [List.length_cons, objectLoop, hkey.1, hkey.2, hgt, if_false, one_ne_zero, hv, ht]
    simp [objSet]

/-- `bunser_object` on pairs whose keys are introduced by arbitrary bytes. -/
theorem bunser_object_decodes_marked (dec : St → Option (Value × St)) (LONG_MAX : Int) (m : Mem)
    (cnt : List Byte) (pairs : List (Byte × PairEnc)) (mark : Byte)
    (hcnt : IsIntEnc cnt pairs.length)
    (hp : ∀ p ∈ pairs, IsIntEnc p.2.keyLen p.2.key.length ∧ (p.2.key.length : Int) ≤ LONG_MAX ∧
      Decodes dec m p.2.bytes p.2.value)
    (pre post : List Byte) (thrown : List TypeErr) (oob : Bool)
    (h : m.data = pre ++ (mark :: cnt ++
      (pairs.map (fun p => p.1 :: p.2.keyLen ++ p.2.key ++ p.2.bytes)).flatten) ++ post) :
    bunser_object dec LONG_MAX m ⟨(pre.length : Int), thrown, oob⟩
      = some (pairs.map (fun p => (Value.str p.2.key, p.2.value)),
          ⟨((pre ++ (mark :: cnt ++ (pairs.map
            (fun p => p.1 :: p.2.keyLen ++ p.2.key ++ p.2.bytes)).flatten)).length : Int),
            thrown, oob⟩) := by
  have hint := bunser_int_at m (pre ++ [mark]) cnt
    ((pairs.map (fun p => p.1 :: p.2.keyLen ++ p.2.key ++ p.2.bytes)).flatten ++ post)
    pairs.length thrown oob 0 (by simpa using h) hcnt
  have hloop := objectLoop_decodes_marked dec LONG_MAX m pairs hp (pre ++ [mark] ++ cnt) post
    thrown oob [] (by simpa using h)
  simp only [List.length_append, List.length_singleton, Nat.cast_add, Nat.cast_one] at hint
  simp only [bunser_object, hint, if_false, one_ne_zero, Int.toNat_ofNat]
  simp only [List.length_append, List.length_singleton, Nat.cast_add, Nat.cast_one] at hloop
  rw [hloop]
  simp only [List.nil_append, List.length_append, List.length_cons, Nat.cast_add, Nat.cast_one,
    Option.some.injEq, Prod.mk.injEq, St.mk.injEq, true_and, and_true]
  omega


theorem templateRow_decodes (dec : St → Option (Value × St)) (m : Mem) (keys : List Value) :
    ∀ (row : List (Option (List Byte × Value))), row.length = keys.length →
      (∀ c ∈ row, ∀ e, c = some e →
        Decodes dec m e.1 e.2 ∧ ∃ t rest, e.1 = t :: rest ∧ t ≠ BSER_SKIP) →
      ∀ (pre post : List Byte) (thrown : List TypeErr) (oob : Bool) (obj : List (Value × Value)),
      m.data = pre ++ (row.map cellBytes).flatten ++ post →
      templateRow dec m keys ⟨(pre.length : Int), thrown, oob⟩ obj
        = some (obj ++ rowPairs keys row,
            ⟨((pre ++ (row.map cellBytes).flatten).length : Int), thrown, oob⟩) := by
  induction keys with
  | nil =>
    intro row hlen _ pre post thrown oob obj _
    have : row = [] := List.length_eq_zero.1 hlen
    subst this
    simp [templateRow, rowPairs]
  | cons k ks ih =>
    intro row hlen hc pre post thrown oob obj h
    cases row with
    | nil => simp at hlen
    | cons c cs =>
      have hlen' : cs.length = ks.length := by simpa using hlen
      have hc' : ∀ c' ∈ cs, ∀ e, c' = some e →
          Decodes dec m e.1 e.2 ∧ ∃ t rest, e.1 = t :: rest ∧ t ≠ BSER_SKIP :=
        fun c' hc'' => hc c' (List.mem_cons_of_mem _ hc'')
      cases c with
      | none =>
        have hb : m.byte (pre.length : Int) = BSER_SKIP :=
          byte_at m pre ((cs.map cellBytes).flatten ++ post) BSER_SKIP
            (by simpa [cellBytes] using h)
        have hr : (⟨(pre.length : Int), thrown, oob⟩ : St).read m (pre.length : Int) 1
            = ⟨(pre.length : Int), thrown, oob⟩ :=
          read_at _ m pre [BSER_SKIP] ((cs.map cellBytes).flatten ++ post) 1
            (by simpa [cellBytes] using h) (by simp)
        have ht := ih cs hlen' hc' (pre ++ [BSER_SKIP]) post thrown oob obj
          (by simpa [cellBytes] using h)
        simp only [List.length_append, List.length_singleton, Nat.cast_add, Nat.cast_one] at ht
        simp only [templateRow, hb, if_true, hr, ht]
        simp [rowPairs, cellBytes]
        omega
      | some e =>
        obtain ⟨hdec, t, rest, het, hne⟩ := hc (some e) (List.mem_cons_self _ _) e rfl
        have hb : m.byte (pre.length : Int) = t :=
          byte_at m pre (rest ++ (cs.map cellBytes).flatten ++ post) t
            (by simpa [cellBytes, het] using h)
        have hr : (⟨(pre.length : Int), thrown, oob⟩ : St).read m (pre.length : Int) 1
            = ⟨(pre.length : Int), thrown, oob⟩ :=
          read_at _ m pre e.1 ((cs.map cellBytes).flatten ++ post) 1
            (by simpa [cellBytes] using h) (by rw [het]; simp)
        have hv := hdec pre ((cs.map cellBytes).flatten ++ post) thrown oob
          (by simpa [cellBytes] using h)
        have ht := ih cs hlen' hc' (pre ++ e.1) post thrown oob (objSet obj k e.2)
          (by simpa [cellBytes] using h)
        simp only [templateRow, hb, if_neg hne, hr, hv, ht]
        simp [rowPairs, cellBytes, objSet]

theorem templateRows_decodes (dec : St → Option (Value × St)) (m : Mem) (keys : List Value)
    (rows : List (List (Option (List Byte × Value))))
    (hrows : ∀ row ∈ rows, row.length = keys.length ∧ ∀ c ∈ row, ∀ e, c = some e →
      Decodes dec m e.1 e.2 ∧ ∃ t rest, e.1 = t :: rest ∧ t ≠ BSER_SKIP) :
    ∀ (pre post : List Byte) (thrown : List TypeErr) (oob : Bool) (done : List Value) (h : Nat),
      m.data = pre ++ (rows.map (fun row => (row.map cellBytes).flatten)).flatten ++ post →
      templateRows dec m keys rows.length done.length ⟨(pre.length : Int), thrown, oob⟩
          (done ++ List.replicate h .undefined)
        = some (done ++ rows.map (fun row => Value.obj (rowPairs keys row))
              ++ List.replicate (h - rows.length) .undefined,
            ⟨((pre ++ (rows.map (fun row => (row.map cellBytes).flatten)).flatten).length : Int),
              thrown, oob⟩) := by
  induction rows with
  | nil => intro pre post thrown oob done h _; simp [templateRows]
  | cons row rs ih =>
    intro pre post thrown oob done h hm
    obtain ⟨hlen, hc⟩ := hrows row (List.mem_cons_self _ _)
    have hrow := templateRow_decodes dec m keys row hlen hc pre
      ((rs.map (fun row => (row.map cellBytes).flatten)).flatten ++ post) thrown oob []
      (by simpa using hm)
    have ht := ih (fun x hx => hrows x (List.mem_cons_of_mem _ hx))
      (pre ++ (row.map cellBytes).flatten) post thrown oob
      (done ++ [.obj (rowPairs keys row)]) (h - 1) (by simpa using hm)
    have hl : (done ++ [Value.obj (rowPairs keys row)]).length = done.length + 1 := by simp
    rw [hl] at ht
    simp only [List.length_cons, templateRows, hrow, List.nil_append, arrSet_next, ht]
    simp [Nat.sub_sub, Nat.add_comm]

/-- `bunser_template` on a template with keys that the buffer holds. -/
theorem bunser_template_decodes (dec : St → Option (Value × St)) (LONG_MAX : Int) (m : Mem)
    (cnt rcnt : List Byte) (keys : List (List Byte × Value))
    (rows : List (List (Option (List Byte × Value)))) (mark : Byte)
    (hne : keys ≠ []) (hcnt : IsIntEnc cnt keys.length) (hmax : (keys.length : Int) ≤ LONG_MAX)
    (hkeys : ∀ k ∈ keys, Decodes dec m k.1 k.2)
    (hrcnt : IsIntEnc rcnt rows.length) (hrmax : (rows.length : Int) ≤ LONG_MAX)
    (hrows : ∀ row ∈ rows, row.length = keys.length ∧ ∀ c ∈ row, ∀ e, c = some e →
      Decodes dec m e.1 e.2 ∧ ∃ t rest, e.1 = t :: rest ∧ t ≠ BSER_SKIP)
    (pre post : List Byte) (thrown : List TypeErr) (oob : Bool)
    (h : m.data = pre ++ (mark :: BSER_ARRAY :: cnt ++ (keys.map Prod.fst).flatten ++ rcnt ++
      (rows.map (fun row => (row.map cellBytes).flatten)).flatten) ++ post) :
    bunser_template dec LONG_MAX m ⟨(pre.length : Int), thrown, oob⟩
      = some (rows.map (fun row => Value.obj (rowPairs (keys.map Prod.snd) row)),
          ⟨((pre ++ (mark :: BSER_ARRAY :: cnt ++ (keys.map Prod.fst).flatten ++ rcnt ++
            (rows.map (fun row => (row.map cellBytes).flatten)).flatten)).length : Int),
            thrown, oob⟩) := by
  have hb : m.byte ((pre.length : Int) + 1) = BSER_ARRAY := by
    have := byte_at m (pre ++ [mark]) (cnt ++ (keys.map Prod.fst).flatten ++ rcnt ++
      (rows.map (fun row => (row.map cellBytes).flatten)).flatten ++ post) BSER_ARRAY
      (by simpa using h)
    simpa using this
  have hr : (⟨(pre.length : Int), thrown, oob⟩ : St).read m ((pre.length : Int) + 1) 1
      = ⟨(pre.length : Int), thrown, oob⟩ := by
    have := read_at ⟨(pre.length : Int), thrown, oob⟩ m (pre ++ [mark]) [BSER_ARRAY]
      (cnt ++ (keys.map Prod.fst).flatten ++ rcnt ++
        (rows.map (fun row => (row.map cellBytes).flatten)).flatten ++ post) 1
      (by simpa using h) (by simp)
    simpa using this
  have harr := bunser_array_decodes dec LONG_MAX m cnt keys BSER_ARRAY hcnt hmax hkeys
    (pre ++ [mark]) (rcnt ++ (rows.map (fun row => (row.map cellBytes).flatten)).flatten ++ post)
    thrown oob (by simpa using h)
  have hint := bunser_int_at m (pre ++ [mark] ++ (BSER_ARRAY :: cnt ++ (keys.map Prod.fst).flatten))
    rcnt ((rows.map (fun row => (row.map cellBytes).flatten)).flatten ++ post) rows.length
    thrown oob 0 (by simpa using h) hrcnt
  have hloop := templateRows_decodes dec m (keys.map Prod.snd) rows
    (by simpa using hrows)
    (pre ++ [mark] ++ (BSER_ARRAY :: cnt ++ (keys.map Prod.fst).flatten) ++ rcnt) post thrown oob []
    (newArray (rows.length : Int)).length (by simpa using h)
  have hlen : ¬ (keys.map Prod.snd).length = 0 := by
    cases keys with
    | nil => exact absurd rfl hne
    | cons k ks => simp
  have hgt : ¬ ((rows.length : Int) > LONG_MAX) := by omega
  have hnew := newArray_eq (rows.length : Int)
  have hsub : (newArray (rows.length : Int)).length - rows.length = 0 :=
    Nat.sub_eq_zero_of_le (newArray_length_le rows.length)
  simp only [List.length_append, List.length_cons, List.length_nil, Nat.cast_add,
    Nat.cast_one, Nat.cast_zero, zero_add] at harr hint hloop
  simp only [bunser_template, hr, hb, ne_eq, not_true_eq_false, if_false, harr, hlen, hint, hgt,
    one_ne_zero, Int.toNat_ofNat]
  rw [hnew, hloop, hsub]
  simp only [List.nil_append, List.replicate_zero, List.append_nil, List.length_append,
    List.length_cons, List.length_nil,
    Nat.cast_add, Nat.cast_one, Nat.cast_zero, Option.some.injEq, Prod.mk.injEq, St.mk.injEq,
    true_and, and_true]
  omega

/-! ## Well-formed encodings are decoded -/

theorem isIntEnc_head (bs : List Byte) (n : Int) (h : IsIntEnc bs n) :
    ∃ t rest, bs = t :: rest ∧ t ≠ BSER_SKIP := by
  obtain ⟨tag, w, hw, _, rfl⟩ := h
  refine ⟨tag, _, rfl, ?_⟩
  rintro rfl
  have hnone : intWidth BSER_SKIP = none := by decide
  rw [hnone] at hw
  exact absurd hw (by simp)

/-- An encoded value never starts with the SKIP byte. -/
theorem encodes_head (LONG_MAX : Int) (d : Nat) (bs : List Byte) (v : Value)
    (h : Encodes LONG_MAX d bs v) : ∃ t rest, bs = t :: rest ∧ t ≠ BSER_SKIP := by
  cases d with
  | zero => exact absurd h (by simp [Encodes])
  | succ d =>
    simp only [Encodes] at h
    rcases h with ⟨n, hn, _⟩ | ⟨p, _, rfl, _⟩ | ⟨rfl, _⟩ | ⟨rfl, _⟩ | ⟨rfl, _⟩ |
      ⟨len, p, _, _, rfl, _⟩ | ⟨cnt, es, _, _, _, rfl, _⟩ | ⟨cnt, ps, _, _, rfl, _⟩ |
      ⟨cnt, _, _, rfl, _⟩ | ⟨cnt, ks, rcnt, rows, _, _, _, _, _, _, _, rfl, _⟩
    · exact isIntEnc_head bs n hn
    all_goals exact ⟨_, _, rfl, by decide⟩

/-- `bunser`, given enough calls to nest, decodes every well-formed encoding that the
buffer holds to the value it encodes, with the cursor left just past the encoding,
nothing thrown and nothing read outside the buffer, whatever precedes and follows the
encoding. -/
theorem bunser_decodes (LONG_MAX : Int) (m : Mem) :
    ∀ (d fuel : Nat), d ≤ fuel → ∀ (bs : List Byte) (v : Value), Encodes LONG_MAX d bs v →
      Decodes (bunser LONG_MAX m fuel) m bs v := by
  intro d
  induction d with
  | zero => intro fuel _ bs v h; exact absurd h (by simp [Encodes])
  | succ d ih =>
    intro fuel hfuel bs v h pre post thrown oob hm
    obtain ⟨f, rfl⟩ : ∃ f, fuel = f + 1 := ⟨fuel - 1, by omega⟩
    have hdf : d ≤ f := by omega
    obtain ⟨t, rest, hbs, _⟩ := encodes_head LONG_MAX (d + 1) bs v h
    have hb : m.byte (pre.length : Int) = t :=
      byte_at m pre (rest ++ post) t (by simpa [hbs] using hm)
    have hr : (⟨(pre.length : Int), thrown, oob⟩ : St).read m (pre.length : Int) 1
        = ⟨(pre.length : Int), thrown, oob⟩ :=
      read_at _ m pre bs post 1 hm (by rw [hbs]; simp)
    simp only [Encodes] at h
    rcases h with ⟨n, hn, rfl⟩ | ⟨p, hp, rfl, rfl⟩ | ⟨rfl, rfl⟩ | ⟨rfl, rfl⟩ | ⟨rfl, rfl⟩ |
      ⟨len, p, hlen, hmax, rfl, rfl⟩ | ⟨cnt, es, hcnt, hmax, hes, rfl, rfl⟩ |
      ⟨cnt, ps, hcnt, hps, rfl, rfl⟩ | ⟨cnt, hcnt, hL, rfl, rfl⟩ |
      ⟨cnt, ks, rcnt, rows, hne, hcnt, hmax, hks, hrcnt, hrmax, hrows, rfl, rfl⟩
    · -- integers
      have hint := bunser_int_at m pre bs post n thrown oob 0 hm hn
      obtain ⟨tag, w, hw, _, rfl⟩ := hn
      simp only [List.cons.injEq] at hbs
      rw [bunser_int_tag LONG_MAX m f ⟨(pre.length : Int), thrown, oob⟩ w
        (by simpa only [hb, ← hbs.1] using hw)]
      simp only [hr, hint, one_ne_zero, if_false]
    · -- reals
      simp only [List.cons.injEq] at hbs
      have hpay := bytes_at m p (pre ++ [BSER_REAL]) post (by simpa using hm)
      have hsz := size_at m pre (BSER_REAL :: p) post hm
      simp only [List.length_append, List.length_cons, List.length_nil, Nat.cast_add,
        Nat.cast_one, Nat.cast_zero, zero_add, hp] at hpay hsz
      have hr2 : (⟨(pre.length : Int), thrown, oob⟩ : St).read m ((pre.length : Int) + 1) 8
          = ⟨(pre.length : Int), thrown, oob⟩ :=
        read_inside _ m _ 8 (by omega) (by rw [hsz]; push_cast; omega)
      rw [bunser_real_tag LONG_MAX m f ⟨(pre.length : Int), thrown, oob⟩ (by rw [hb, ← hbs.1])]
      simp only [hr, hr2, hpay, List.length_append, List.length_cons, hp, Nat.cast_add,
        Nat.cast_one, Option.some.injEq, Prod.mk.injEq, St.mk.injEq, true_and, and_true]
      push_cast
      ring
    · -- true
      simp only [List.cons.injEq] at hbs
      rw [bunser_true_tag LONG_MAX m f ⟨(pre.length : Int), thrown, oob⟩ (by rw [hb, ← hbs.1])]
      simp [hr]
    · -- false
      simp only [List.cons.injEq] at hbs
      rw [bunser_false_tag LONG_MAX m f ⟨(pre.length : Int), thrown, oob⟩ (by rw [hb, ← hbs.1])]
      simp [hr]
    · -- null
      simp only [List.cons.injEq] at hbs
      rw [bunser_null_tag LONG_MAX m f ⟨(pre.length : Int), thrown, oob⟩ (by rw [hb, ← hbs.1])]
      simp [hr]
    · -- strings
      have hstr := bunser_bytestring_at m pre len p post BSER_STRING thrown oob 0 0 hm hlen
      have hgt : ¬ ((p.length : Int) > LONG_MAX) := by omega
      simp only [List.cons_append, List.cons.injEq] at hbs
      rw [bunser_string_tag LONG_MAX m f ⟨(pre.length : Int), thrown, oob⟩ (by rw [hb, ← hbs.1])]
      simp only [hr, hstr.1, hstr.2, one_ne_zero, if_false, hgt]
    · -- arrays
      have harr := bunser_array_decodes (bunser LONG_MAX m f) LONG_MAX m cnt es BSER_ARRAY hcnt
        hmax (fun e he => ih f hdf e.1 e.2 (hes e he)) pre post thrown oob hm
      simp only [List.cons_append, List.cons.injEq] at hbs
      rw [bunser_array_tag LONG_MAX m f ⟨(pre.length : Int), thrown, oob⟩ (by rw [hb, ← hbs.1])]
      simp only [hr, harr]
    · -- objects
      have hobj := bunser_object_decodes (bunser LONG_MAX m f) LONG_MAX m cnt ps BSER_OBJECT hcnt
        (fun q hq => ⟨(hps q hq).1, (hps q hq).2.1, ih f hdf q.bytes q.value (hps q hq).2.2⟩)
        pre post thrown oob hm
      simp only [List.cons_append, List.cons.injEq] at hbs
      rw [bunser_object_tag LONG_MAX m f ⟨(pre.length : Int), thrown, oob⟩ (by rw [hb, ← hbs.1])]
      simp only [hr, hobj]
    · -- templates without keys
      have hb1 : m.byte ((pre.length : Int) + 1) = BSER_ARRAY := by
        have := byte_at m (pre ++ [BSER_TEMPLATE]) (cnt ++ post) BSER_ARRAY (by simpa using hm)
        simpa using this
      have hr1 : (⟨(pre.length : Int), thrown, oob⟩ : St).read m ((pre.length : Int) + 1) 1
          = ⟨(pre.length : Int), thrown, oob⟩ := by
        have := read_at ⟨(pre.length : Int), thrown, oob⟩ m (pre ++ [BSER_TEMPLATE]) [BSER_ARRAY]
          (cnt ++ post) 1 (by simpa using hm) (by simp)
        simpa using this
      have harr := bunser_array_decodes (bunser LONG_MAX m f) LONG_MAX m cnt [] BSER_ARRAY
        (by simpa using hcnt) (by simpa using hL) (by simp) (pre ++ [BSER_TEMPLATE]) post thrown oob
        (by simpa using hm)
      simp only [List.length_append, List.length_cons, List.length_nil, Nat.cast_add,
        Nat.cast_one, Nat.cast_zero, zero_add, List.map_nil, List.flatten_nil,
        List.append_nil] at harr
      simp only [List.cons.injEq] at hbs
      rw [bunser_template_tag LONG_MAX m f ⟨(pre.length : Int), thrown, oob⟩
        (by rw [hb, ← hbs.1])]
      simp only [hr, bunser_template, hr1, hb1, ne_eq, not_true_eq_false, if_false, harr,
        newArray_zero, List.length_nil, if_true, List.length_append, List.length_cons, Nat.cast_add,
        Nat.cast_one, Option.some.injEq, Prod.mk.injEq, St.mk.injEq, true_and, and_true]
      omega
    · -- templates
      have htpl := bunser_template_decodes (bunser LONG_MAX m f) LONG_MAX m cnt rcnt ks rows
        BSER_TEMPLATE hne hcnt hmax (fun k hk => ih f hdf k.1 k.2 (hks k hk).1) hrcnt hrmax
        (fun row hrow => ⟨(hrows row hrow).1, fun c hc e he =>
          ⟨ih f hdf e.1 e.2 ((hrows row hrow).2 c hc e he),
            encodes_head LONG_MAX d e.1 e.2 ((hrows row hrow).2 c hc e he)⟩⟩)
        pre post thrown oob hm
      simp only [List.cons_append, List.cons.injEq] at hbs
      rw [bunser_template_tag LONG_MAX m f ⟨(pre.length : Int), thrown, oob⟩
        (by rw [hb, ← hbs.1])]
      simp only [hr, htpl]

/-! ## Properties on well-formed input -/

/-- C11: on a buffer made of the magic 00 01, an encoded integer `L` and `L` payload
bytes, `bser_loads` returns what its value decoder returns when entered once, at the
first payload byte, with nothing thrown so far: this holds for every decoder it could be
given, so the result depends on one call only. And when the payload starts with a
well-formed encoding of `v`, `bser_loads` returns `v` with no exception whatever bytes
`trailing` follow that encoding inside the payload. -/
theorem C11_loads_decodes_one_value (LONG_MAX : Int) (outside : Int → Byte) (len : List Byte)
    (L : Int) (payload : List Byte) (hlen : IsIntEnc len L) (hL : L = payload.length) :
    (∀ decode : Mem → St → Option (Value × St),
      bser_loads_with bunser_int decode ⟨[0x00, 0x01] ++ len ++ payload, outside⟩ =
        match decode ⟨[0x00, 0x01] ++ len ++ payload, outside⟩
          ⟨(([0x00, 0x01] ++ len).length : Int), [], false⟩ with
        | none => none
        | some (v, s) => some ⟨s.thrown.map Exn.typeError, some v, s.oob⟩) ∧
    (∀ (d fuel : Nat) (bs trailing : List Byte) (v : Value), d ≤ fuel →
      Encodes LONG_MAX d bs v → payload = bs ++ trailing →
      bser_loads LONG_MAX fuel ⟨[0x00, 0x01] ++ len ++ payload, outside⟩
        = some ⟨[], some v, false⟩) := by
  have hpos := isIntEnc_length len L hlen
  have hint := bunser_int_at ⟨[0x00, 0x01] ++ len ++ payload, outside⟩ [0x00, 0x01] len payload L
    [] false 0 rfl hlen
  have h0 : Mem.byte ⟨[0x00, 0x01] ++ len ++ payload, outside⟩ 0 = 0x00 := by
    have := byte_at ⟨[0x00, 0x01] ++ len ++ payload, outside⟩ [] (0x01 :: len ++ payload) 0x00
      (by simp)
    simpa using this
  have h1 : Mem.byte ⟨[0x00, 0x01] ++ len ++ payload, outside⟩ 1 = 0x01 := by
    have := byte_at ⟨[0x00, 0x01] ++ len ++ payload, outside⟩ [0x00] (len ++ payload) 0x01
      (by simp)
    simpa using this
  have henter : ∀ decode : Mem → St → Option (Value × St),
      bser_loads_with bunser_int decode ⟨[0x00, 0x01] ++ len ++ payload, outside⟩ =
        match decode ⟨[0x00, 0x01] ++ len ++ payload, outside⟩
          ⟨(([0x00, 0x01] ++ len).length : Int), [], false⟩ with
        | none => none
        | some (v, s) => some ⟨s.thrown.map Exn.typeError, some v, s.oob⟩ := by
    intro decode
    exact bser_loads_with_enters decode ⟨[0x00, 0x01] ++ len ++ payload, outside⟩ L
      (([0x00, 0x01] ++ len).length : Int)
      h0 h1
      (by simp only [Mem.size, List.length_append, List.length_cons, List.length_nil]; omega)
      (by simpa using hint)
      (by simp only [Mem.size, List.length_append, List.length_cons, List.length_nil, hL]
          push_cast; ring)
  refine ⟨henter, ?_⟩
  intro d fuel bs trailing v hd henc hpay
  subst hpay
  have hdec := bunser_decodes LONG_MAX ⟨[0x00, 0x01] ++ len ++ (bs ++ trailing), outside⟩ d fuel hd
    bs v henc ([0x00, 0x01] ++ len) trailing [] false (by simp)
  simp only [bser_loads, henter, hdec]
  rfl

theorem C11_loads_decodes_one_value_witness :
    bser_loads LONG_MAX_64 1 (memOf [0x00, 0x01, 0x05, 0x01, 0x00, 0x00, 0x00, 0x08])
      = some ⟨[], some (.bool true), false⟩ :=
  (C11_loads_decodes_one_value LONG_MAX_64 (fun _ => 0) [0x05, 0x01, 0x00, 0x00, 0x00] 1 [0x08]
    ⟨0x05, 4, by decide, by unfold fitsSigned; decide, by decide⟩ (by decide)).2 1 1 [0x08] []
    (.bool true) (le_refl _) (by simp [Encodes, BSER_TRUE]) (by decide)

/-- C12: on an ARRAY tag followed by an encoded count `n` and `n` well-formed encodings
one after the other, `bunser_array` returns exactly `n` elements, the i-th being the
value `bunser` decodes from the i-th encoding, in encoded order, with the cursor just
past the last element, nothing thrown and nothing read outside the buffer. (The count is
at most `LONG_MAX`.) -/
theorem C12_array_decodes_in_order (LONG_MAX : Int) (m : Mem) (d fuel : Nat) (cnt : List Byte)
    (elems : List (List Byte × Value)) (pre post : List Byte) (thrown : List TypeErr)
    (oob : Bool) (hfuel : d ≤ fuel) (hcnt : IsIntEnc cnt elems.length)
    (hmax : (elems.length : Int) ≤ LONG_MAX)
    (helems : ∀ e ∈ elems, Encodes LONG_MAX d e.1 e.2)
    (hm : m.data = pre ++ (BSER_ARRAY :: cnt ++ (elems.map Prod.fst).flatten) ++ post) :
    bunser_array (bunser LONG_MAX m fuel) LONG_MAX m ⟨(pre.length : Int), thrown, oob⟩
      = some (elems.map Prod.snd,
          ⟨((pre ++ (BSER_ARRAY :: cnt ++ (elems.map Prod.fst).flatten)).length : Int),
            thrown, oob⟩) ∧
    (elems.map Prod.snd).length = elems.length ∧
    (∀ e ∈ elems, Decodes (bunser LONG_MAX m fuel) m e.1 e.2) :=
  ⟨bunser_array_decodes (bunser LONG_MAX m fuel) LONG_MAX m cnt elems BSER_ARRAY hcnt hmax
      (fun e he => bunser_decodes LONG_MAX m d fuel hfuel e.1 e.2 (helems e he))
      pre post thrown oob hm,
    List.length_map _ _,
    fun e he => bunser_decodes LONG_MAX m d fuel hfuel e.1 e.2 (helems e he)⟩

theorem C12_array_decodes_in_order_witness :
    bunser_array (bunser LONG_MAX_64 (memOf [0x00, 0x03, 0x02, 0x03, 0x05, 0x03, 0xfd]) 1)
        LONG_MAX_64 (memOf [0x00, 0x03, 0x02, 0x03, 0x05, 0x03, 0xfd]) ⟨0, [], false⟩
      = some ([.number 5, .number (-3)], ⟨7, [], false⟩) :=
  (C12_array_decodes_in_order LONG_MAX_64 (memOf [0x00, 0x03, 0x02, 0x03, 0x05, 0x03, 0xfd]) 1 1
    [0x03, 0x02] [([0x03, 0x05], .number 5), ([0x03, 0xfd], .number (-3))] [] [] [] false
    (le_refl _) ⟨0x03, 1, by decide, by unfold fitsSigned; decide, by decide⟩ (by decide)
    (by
      intro e he
      simp only [List.mem_cons, List.mem_singleton, List.not_mem_nil, or_false] at he
      rcases he with rfl | rfl
      · exact Or.inl ⟨5, ⟨0x03, 1, by decide, by unfold fitsSigned; decide, by decide⟩,
          by simp [int64ToDouble, excessBits]⟩
      · exact Or.inl ⟨-3, ⟨0x03, 1, by decide, by unfold fitsSigned; decide, by decide⟩,
          by simp [int64ToDouble, excessBits]⟩)
    rfl).1

/-! ## Lists of pairs: first occurrences and last values -/

theorem assoc_isSome {κ : Type} [DecidableEq κ] (o : List (κ × Value)) (k : κ) :
    (assoc k o).isSome = true ↔ k ∈ o.map Prod.fst := by
  induction o with
  | nil => simp [assoc]
  | cons a rest ih =>
    obtain ⟨a, b⟩ := a
    by_cases h : a = k
    · simp [assoc, h]
    · have h' : ¬ k = a := fun e => h e.symm
      simp [assoc, h, h', ih]

/-- C20: `bunser_bytestring` does not look at the byte under the cursor. On two buffers
of the same length that agree everywhere but at the cursor position it returns the same
code, the same `*start`, the same `*len` and the same state (cursor, exceptions), and
when it succeeds the key string made from the span is the same. The byte that introduces
an object key is thus never compared with the STRING tag: on a counted sequence of pairs
whose keys are introduced by arbitrary bytes `bunser_object` sets every pair on the
object, in encoded order, throwing nothing. -/
theorem C20_bytestring_ignores_marker (m m' : Mem) (s : St) (start len : Int)
    (hsize : m.size = m'.size) (hsame : ∀ i, i ≠ s.ptr → m.byte i = m'.byte i) :
    bunser_bytestring m s start len = bunser_bytestring m' s start len ∧
    ((bunser_bytestring m s start len).rc ≠ 0 →
      newString m (bunser_bytestring m s start len).start (bunser_bytestring m s start len).len
        = newString m' (bunser_bytestring m s start len).start
            (bunser_bytestring m s start len).len) ∧
    (∀ (dec : St → Option (Value × St)) (LONG_MAX : Int) (cnt : List Byte)
      (pairs : List (Byte × PairEnc)) (pre post : List Byte) (thrown : List TypeErr) (oob : Bool),
      IsIntEnc cnt pairs.length →
      (∀ p ∈ pairs, IsIntEnc p.2.keyLen p.2.key.length ∧ (p.2.key.length : Int) ≤ LONG_MAX ∧
        Decodes dec m p.2.bytes p.2.value) →
      m.data = pre ++ (BSER_OBJECT :: cnt ++
        (pairs.map (fun p => p.1 :: p.2.keyLen ++ p.2.key ++ p.2.bytes)).flatten) ++ post →
      bunser_object dec LONG_MAX m ⟨(pre.length : Int), thrown, oob⟩
        = some (pairs.map (fun p => (Value.str p.2.key, p.2.value)),
            ⟨((pre ++ (BSER_OBJECT :: cnt ++ (pairs.map
              (fun p => p.1 :: p.2.keyLen ++ p.2.key ++ p.2.bytes)).flatten)).length : Int),
              thrown, oob⟩)) := by
  have hint : bunser_int m { s with ptr := s.ptr + 1 } len
      = bunser_int m' { s with ptr := s.ptr + 1 } len :=
    bunser_int_congr m m' _ len hsize (fun i hi => hsame i (by simp only at hi; omega))
  refine ⟨by simp only [bunser_bytestring, hint, hsize], ?_, ?_⟩
  · intro hrc
    have hgt := bunser_int_ptr_gt m { s with ptr := s.ptr + 1 } len
    simp only [bunser_bytestring] at hrc ⊢
    split_ifs at hrc ⊢ with h1 h2
    · simp at hrc
    · simp at hrc
    · exact newString_congr m m' _ _ s.ptr (by have := hgt h1; simp only at this ⊢; omega) hsame
  · intro dec LONG_MAX cnt pairs pre post thrown oob hcnt hp hm
    exact bunser_object_decodes_marked dec LONG_MAX m cnt pairs BSER_OBJECT hcnt hp pre post
      thrown oob hm

set_option maxRecDepth 4000 in
theorem C20_bytestring_ignores_marker_witness :
    bunser_bytestring (memOf [0x02, 0x03, 0x01, 0x61]) ⟨0, [], false⟩ 0 0
      = bunser_bytestring (memOf [0xff, 0x03, 0x01, 0x61]) ⟨0, [], false⟩ 0 0 ∧
    bunser_bytestring (memOf [0xff, 0x03, 0x01, 0x61]) ⟨0, [], false⟩ 0 0
      = ⟨1, 3, 1, ⟨4, [], false⟩⟩ ∧
    bunser_object (bunser LONG_MAX_64 (memOf [0x01, 0x03, 0x01, 0xff, 0x03, 0x01, 0x61, 0x08]) 1)
        LONG_MAX_64 (memOf [0x01, 0x03, 0x01, 0xff, 0x03, 0x01, 0x61, 0x08]) ⟨0, [], false⟩
      = some ([(.str [0x61], .bool true)], ⟨8, [], false⟩) :=
  ⟨(C20_bytestring_ignores_marker (memOf [0x02, 0x03, 0x01, 0x61])
      (memOf [0xff, 0x03, 0x01, 0x61]) ⟨0, [], false⟩ 0 0 (by decide)
      (by
        intro i hi
        have h0 : i ≠ 0 := hi
        by_cases hneg : i < 0
        · simp [Mem.byte, memOf, hneg]
        · obtain ⟨n, rfl⟩ := Int.eq_ofNat_of_zero_le (by omega : 0 ≤ i)
          cases n with
          | zero => exact absurd rfl h0
          | succ k => simp [Mem.byte, memOf, hneg])).1,
    by decide,
    (C20_bytestring_ignores_marker (memOf [0x01, 0x03, 0x01, 0xff, 0x03, 0x01, 0x61, 0x08])
      (memOf [0x01, 0x03, 0x01, 0xff, 0x03, 0x01, 0x61, 0x08]) ⟨0, [], false⟩ 0 0 rfl
      (fun _ _ => rfl)).2.2
      (bunser LONG_MAX_64 (memOf [0x01, 0x03, 0x01, 0xff, 0x03, 0x01, 0x61, 0x08]) 1) LONG_MAX_64
      [0x03, 0x01] [(0xff, ⟨[0x03, 0x01], [0x61], [0x08], .bool true⟩)] [] [] [] false
      ⟨0x03, 1, by decide, by unfold fitsSigned; decide, by decide⟩
      (by
        intro p hp
        simp only [List.mem_singleton] at hp
        subst hp
        exact ⟨⟨0x03, 1, by decide, by unfold fitsSigned; decide, by decide⟩,
          by simp [LONG_MAX_64],
          bunser_decodes LONG_MAX_64 _ 1 1 (le_refl _) [0x08] (.bool true)
            (by simp [Encodes, BSER_TRUE])⟩)
      rfl⟩

end Bser
